import Mathlib

/-!
# MINC image reader: a shallow embedding of `itkMINCImageIO.cxx`

The file embeds the MINC reader of the repository (`itk::MINCImageIO`) as Lean
definitions and proves properties of them.

* Pure code (`ConvertDataTypeToITK`, `ConvertScalarDataTypeToMINC`,
  `ConvertComplexDataTypeToMINC`, `CanWriteFile`) becomes Lean functions.
* Stateful code becomes explicit state passing over `Sys`, a pair of the
  instance fields and the state of the MINC library.  A call returns a `Res`:
  a normal return, a raised exception (both with the state reached), or
  `undefined` where C++ or the library gives the call no defined behaviour.
* `double` values are exact rationals; `unsigned long` / `size_t` arithmetic is
  arithmetic on `Nat` modulo `2 ^ 64` wherever it can wrap.
* The MINC library, `std::string` and the `ImageIOBase` base class are not part
  of the repository; they are modelled from their documented behaviour and the
  model of each says so.
-/

namespace itk

/-! ## Enumerations of the host toolkit and of the MINC library -/

/-- Component types of `itk::ImageIOBase` (`IOComponentType`). -/
inductive IOComponentType
  | UNKNOWNCOMPONENTTYPE
  | UCHAR
  | CHAR
  | USHORT
  | SHORT
  | UINT
  | INT
  | ULONG
  | LONG
  | FLOAT
  | DOUBLE
  deriving DecidableEq

/-- Pixel types of `itk::ImageIOBase` (`IOPixelType`). -/
inductive IOPixelType
  | UNKNOWNPIXELTYPE
  | SCALAR
  | RGB
  | RGBA
  | OFFSET
  | VECTOR
  | POINT
  | COVARIANTVECTOR
  | SYMMETRICSECONDRANKTENSOR
  | DIFFUSIONTENSOR3D
  | COMPLEX
  | FIXEDARRAY
  | MATRIX
  deriving DecidableEq

/-- Stored value types of the MINC library (`mitype_t` of `minc2.h`). -/
inductive mitype_t
  | MI_TYPE_ORIGINAL
  | MI_TYPE_BYTE
  | MI_TYPE_SHORT
  | MI_TYPE_INT
  | MI_TYPE_FLOAT
  | MI_TYPE_DOUBLE
  | MI_TYPE_STRING
  | MI_TYPE_UBYTE
  | MI_TYPE_USHORT
  | MI_TYPE_UINT
  | MI_TYPE_SCOMPLEX
  | MI_TYPE_ICOMPLEX
  | MI_TYPE_FCOMPLEX
  | MI_TYPE_DCOMPLEX
  | MI_TYPE_UNKNOWN
  deriving DecidableEq

/-- Data classes of the MINC library (`miclass_t` of `minc2.h`). -/
inductive miclass_t
  | MI_CLASS_REAL
  | MI_CLASS_INT
  | MI_CLASS_LABEL
  | MI_CLASS_COMPLEX
  | MI_CLASS_UNIFORM_RECORD
  | MI_CLASS_NON_UNIFORM_RECORD
  deriving DecidableEq

/-! ## Type mapping (`itkMINCImageIO.cxx`, lines 13-85) -/

/-- Stored type to component type; the `default` branch logs and falls through
to `UNKNOWNCOMPONENTTYPE`. -/
def ConvertDataTypeToITK (mincType : mitype_t) : IOComponentType :=
  match mincType with
  | .MI_TYPE_BYTE => .CHAR
  | .MI_TYPE_SHORT => .SHORT
  | .MI_TYPE_SCOMPLEX => .SHORT
  | .MI_TYPE_INT => .INT
  | .MI_TYPE_ICOMPLEX => .INT
  | .MI_TYPE_FLOAT => .FLOAT
  | .MI_TYPE_FCOMPLEX => .FLOAT
  | .MI_TYPE_DOUBLE => .DOUBLE
  | .MI_TYPE_DCOMPLEX => .DOUBLE
  | .MI_TYPE_UBYTE => .UCHAR
  | .MI_TYPE_USHORT => .USHORT
  | .MI_TYPE_UINT => .UINT
  | _ => .UNKNOWNCOMPONENTTYPE

/-- Component type to stored scalar type; the `default` branch logs and falls
through to `MI_TYPE_UNKNOWN`. -/
def ConvertScalarDataTypeToMINC (componentType : IOComponentType) : mitype_t :=
  match componentType with
  | .UCHAR => .MI_TYPE_UBYTE
  | .CHAR => .MI_TYPE_BYTE
  | .USHORT => .MI_TYPE_USHORT
  | .SHORT => .MI_TYPE_SHORT
  | .UINT => .MI_TYPE_UINT
  | .INT => .MI_TYPE_INT
  | .FLOAT => .MI_TYPE_FLOAT
  | .DOUBLE => .MI_TYPE_DOUBLE
  | _ => .MI_TYPE_UNKNOWN

/-- Component type to stored complex type; the `default` branch logs and falls
through to `MI_TYPE_UNKNOWN`. -/
def ConvertComplexDataTypeToMINC (componentType : IOComponentType) : mitype_t :=
  match componentType with
  | .SHORT => .MI_TYPE_SCOMPLEX
  | .INT => .MI_TYPE_ICOMPLEX
  | .FLOAT => .MI_TYPE_FCOMPLEX
  | .DOUBLE => .MI_TYPE_DCOMPLEX
  | _ => .MI_TYPE_UNKNOWN

/-! ## `CanWriteFile` (`itkMINCImageIO.cxx`, lines 185-209) -/

/-- The value `std::string::npos`, the largest `size_t`. -/
def npos : Nat := 2 ^ 64 - 1

/-- The function `std::tolower` in the "C" locale: `A`..`Z` go to `a`..`z`,
every other character is unchanged. -/
def tolower (c : Char) : Char := c.toLower

/-- Comparison of `pat` with the `pat.length` characters of `s` at `pos`
(`traits_type::compare(data + pos, pat, n) == 0`). -/
def compareAt (s pat : List Char) (pos : Nat) : Bool :=
  (s.drop pos).take pat.length == pat

/-- The descending search loop of `std::string::rfind`: the first match at or
below `pos`, `npos` when there is none. -/
def rfindFrom (s pat : List Char) : Nat → Nat
  | 0 => if compareAt s pat 0 then 0 else npos
  | pos + 1 => if compareAt s pat (pos + 1) then pos + 1 else rfindFrom s pat pos

/-- The function `std::string::rfind(pat)`: the position of the last occurrence
of `pat` in `s`, or `npos`. -/
def rfind (s pat : List Char) : Nat :=
  if pat.length ≤ s.length then rfindFrom s pat (s.length - pat.length) else npos

/-- The method `MINCImageIO::CanWriteFile`.  The C string is a `String`, one
`Char` per `char`.  `filename.length() - 4` is a `size_t` subtraction and wraps
modulo `2 ^ 64`. -/
def CanWriteFile (filenameOrig : String) : Bool :=
  let filename : List Char := filenameOrig.data.map tolower
  let mncPos := rfind filename ".mnc".data
  if mncPos != npos && decide (mncPos > 0)
      && mncPos == (filename.length + 2 ^ 64 - 4) % 2 ^ 64 then
    true
  else
    let mncPos := rfind filename ".mnc2".data
    if mncPos != npos && decide (mncPos > 0)
        && mncPos == (filename.length + 2 ^ 64 - 5) % 2 ^ 64 then
      true
    else
      false

/-- The filename of a path as the specification reads it: the text after the
last `/`, or the whole string when there is no `/`.  (Specification side only;
the code has no such notion.) -/
def filenameOfPath (path : List Char) : List Char :=
  (path.reverse.takeWhile (fun c => c != '/')).reverse

/-! ## The MINC library, as far as the reader uses it

The library is external.  A file is what the library reports about it; every
query may also report `MI_ERROR`, decided by the oracle `fails`.  Calls are
recorded in `log`.  A volume handle that is not open has no defined behaviour.
-/

/-- One dimension of a file, as reported through its `midimhandle_t`.  A
dimension handle is identified with the dimension it refers to. -/
structure Dimension where
  /-- Sample count (`miget_dimension_size`). -/
  size : Nat
  /-- Signed step (`miget_dimension_separation`). -/
  separation : ℚ
  /-- Start value (`miget_dimension_start`). -/
  start : ℚ
  /-- Direction cosines (`miget_dimension_cosines`, a `double[3]`). -/
  cosines : ℚ × ℚ × ℚ
  /-- Whether the dimension has the attribute `MI_DIMATTR_REGULARLY_SAMPLED`. -/
  regularlySampled : Bool
  deriving DecidableEq

/-- An opened file, as reported through its `mihandle_t`. -/
structure Volume where
  dataClass : miclass_t
  dataType : mitype_t
  /-- All dimensions, in file declaration order. -/
  dimensions : List Dimension
  /-- The real value stored at a voxel index (one entry per dimension, in file
  order). -/
  voxel : List Nat → ℚ

/-- The dimensions selected by `MI_DIMCLASS_ANY`, `MI_DIMATTR_REGULARLY_SAMPLED`
in `MI_DIMORDER_FILE` order. -/
def Volume.regularDimensions (v : Volume) : List Dimension :=
  v.dimensions.filter (fun d => d.regularlySampled)

/-- A call into the MINC library, with the arguments that identify it.  The
arrays handed to the hyperslab read are recorded entry by entry, `none` being an
entry that was never written. -/
inductive LibCall
  | miopen_volume (filename : String)
  | miclose_volume (volume : Nat)
  | miget_data_class (volume : Nat)
  | miget_data_type (volume : Nat)
  | miget_volume_dimension_count (volume : Nat)
  | miget_volume_dimensions (volume : Nat) (arrayLength : Nat)
  | miget_dimension_size (dimension : Dimension)
  | miget_dimension_separation (dimension : Dimension)
  | miget_dimension_start (dimension : Dimension)
  | miget_dimension_cosines (dimension : Dimension)
  | miget_real_value_hyperslab (volume : Nat) (bufferDataType : mitype_t)
      (starts sizes : List (Option Nat))
  deriving DecidableEq

/-- State of the MINC library. -/
structure LibState where
  /-- The files that open as MINC volumes, by name. -/
  files : List (String × Volume)
  /-- The handles that are open, with the volume each refers to. -/
  handles : List (Nat × Volume)
  /-- The next handle to hand out. -/
  next : Nat
  /-- Which queries report `MI_ERROR`. -/
  fails : LibCall → Bool
  /-- The calls made so far, oldest first. -/
  log : List LibCall

/-- Result of a library call: a value, `MI_ERROR`, or no defined behaviour. -/
inductive LibResult (α : Type)
  | value (a : α) (lib : LibState)
  | error (lib : LibState)
  | undefined

/-- Append a call to the log. -/
def LibState.record (lib : LibState) (call : LibCall) : LibState :=
  { lib with log := lib.log ++ [call] }

/-- The volume behind a handle variable; `none` when the variable was never
assigned or the handle is not open. -/
def LibState.volumeOf (lib : LibState) (volume : Option Nat) : Option (Nat × Volume) :=
  match volume with
  | none => none
  | some h =>
    match lib.handles.lookup h with
    | none => none
    | some v => some (h, v)

/-- The call `miopen_volume(filename, MI2_OPEN_READ, &volume)`: a fresh handle
when the file opens as a MINC volume, `MI_ERROR` otherwise. -/
def miopen_volume (filename : String) (lib : LibState) : LibResult Nat :=
  let lib := lib.record (.miopen_volume filename)
  match lib.files.lookup filename with
  | none => .error lib
  | some v => .value lib.next { lib with handles := (lib.next, v) :: lib.handles, next := lib.next + 1 }

/-- The call `miclose_volume(volume)`: the handle stops being open. -/
def miclose_volume (volume : Option Nat) (lib : LibState) : LibResult Unit :=
  match lib.volumeOf volume with
  | none => .undefined
  | some (h, _) =>
    let lib := lib.record (.miclose_volume h)
    .value () { lib with handles := lib.handles.filter (fun e => e.1 != h) }

/-- The call `miget_data_class(volume, &dataClass)`. -/
def miget_data_class (volume : Option Nat) (lib : LibState) : LibResult miclass_t :=
  match lib.volumeOf volume with
  | none => .undefined
  | some (h, v) =>
    let lib := lib.record (.miget_data_class h)
    if lib.fails (.miget_data_class h) then .error lib else .value v.dataClass lib

/-- The call `miget_data_type(volume, &dataType)`. -/
def miget_data_type (volume : Option Nat) (lib : LibState) : LibResult mitype_t :=
  match lib.volumeOf volume with
  | none => .undefined
  | some (h, v) =>
    let lib := lib.record (.miget_data_type h)
    if lib.fails (.miget_data_type h) then .error lib else .value v.dataType lib

/-- The call `miget_volume_dimension_count(volume, MI_DIMCLASS_ANY,
MI_DIMATTR_REGULARLY_SAMPLED, &n)`. -/
def miget_volume_dimension_count (volume : Option Nat) (lib : LibState) : LibResult Nat :=
  match lib.volumeOf volume with
  | none => .undefined
  | some (h, v) =>
    let lib := lib.record (.miget_volume_dimension_count h)
    if lib.fails (.miget_volume_dimension_count h) then .error lib
    else .value v.regularDimensions.length lib

/-- The call `miget_volume_dimensions(volume, MI_DIMCLASS_ANY,
MI_DIMATTR_REGULARLY_SAMPLED, MI_DIMORDER_FILE, arrayLength, dimensions)`: the
handles written, at most `arrayLength` of them, in file order. -/
def miget_volume_dimensions (volume : Option Nat) (arrayLength : Nat) (lib : LibState) :
    LibResult (List Dimension) :=
  match lib.volumeOf volume with
  | none => .undefined
  | some (h, v) =>
    let lib := lib.record (.miget_volume_dimensions h arrayLength)
    if lib.fails (.miget_volume_dimensions h arrayLength) then .error lib
    else .value (v.regularDimensions.take arrayLength) lib

/-- The call `miget_dimension_size(dimension, &size)`. -/
def miget_dimension_size (dimension : Dimension) (lib : LibState) : LibResult Nat :=
  let lib := lib.record (.miget_dimension_size dimension)
  if lib.fails (.miget_dimension_size dimension) then .error lib else .value dimension.size lib

/-- The call `miget_dimension_separation(dimension, MI_ORDER_FILE, &step)`. -/
def miget_dimension_separation (dimension : Dimension) (lib : LibState) : LibResult ℚ :=
  let lib := lib.record (.miget_dimension_separation dimension)
  if lib.fails (.miget_dimension_separation dimension) then .error lib
  else .value dimension.separation lib

/-- The call `miget_dimension_start(dimension, MI_ORDER_FILE, &start)`. -/
def miget_dimension_start (dimension : Dimension) (lib : LibState) : LibResult ℚ :=
  let lib := lib.record (.miget_dimension_start dimension)
  if lib.fails (.miget_dimension_start dimension) then .error lib
  else .value dimension.start lib

/-- The call `miget_dimension_cosines(dimension, cosines)`. -/
def miget_dimension_cosines (dimension : Dimension) (lib : LibState) : LibResult (ℚ × ℚ × ℚ) :=
  let lib := lib.record (.miget_dimension_cosines dimension)
  if lib.fails (.miget_dimension_cosines dimension) then .error lib
  else .value dimension.cosines lib

/-- The voxel indices of a hyperslab in row-major order: the last dimension
varies fastest. -/
def hyperslabIndices : List Nat → List Nat → List (List Nat)
  | start :: starts, count :: counts =>
    (List.range count).flatMap fun i =>
      (hyperslabIndices starts counts).map fun rest => (start + i) :: rest
  | _, _ => [[]]

/-- Whether a hyperslab lies inside the volume, dimension by dimension. -/
def hyperslabInside : List Nat → List Nat → List Dimension → Bool
  | start :: starts, count :: counts, d :: ds =>
    decide (start + count ≤ d.size) && hyperslabInside starts counts ds
  | _, _, _ => true

/-- The values of a list of array entries, when all of them were written. -/
def allWritten : List (Option Nat) → Option (List Nat)
  | [] => some []
  | none :: _ => none
  | some x :: rest => (allWritten rest).map fun xs => x :: xs

/-- The first `n` entries of an array handed to the library, when the array has
that many entries and all of them were written. -/
def readArray (n : Nat) (array : List (Option Nat)) : Option (List Nat) :=
  if n ≤ array.length then allWritten (array.take n) else none

/-- The call `miget_real_value_hyperslab(volume, bufferDataType, starts, sizes,
buffer)`, modelled as a row-major copy of real values.  The library reads one
entry of `starts` and of `sizes` per dimension of the volume; an entry that is
missing or unwritten has no defined behaviour.  A hyperslab that is not inside
the volume is `MI_ERROR`. -/
def miget_real_value_hyperslab (volume : Option Nat) (bufferDataType : mitype_t)
    (starts sizes : List (Option Nat)) (lib : LibState) : LibResult (List ℚ) :=
  match lib.volumeOf volume with
  | none => .undefined
  | some (h, v) =>
    let call := LibCall.miget_real_value_hyperslab h bufferDataType starts sizes
    let lib := lib.record call
    match readArray v.dimensions.length starts, readArray v.dimensions.length sizes with
    | some st, some ct =>
      if lib.fails call || !hyperslabInside st ct v.dimensions then .error lib
      else .value ((hyperslabIndices st ct).map v.voxel) lib
    | _, _ => .undefined

/-! ## The instance: fields of `ImageIOBase` and of `MINCImageIO`

`ImageIOBase` belongs to the host toolkit.  Its setters are modelled as the
bounds-checked stores they are: an index past the end of the vector leaves the
vector unchanged.
-/

/-- The class `itk::ImageIORegion`: a dimension count with one index and one
size per dimension.  Indices are taken at their value as `unsigned long`. -/
structure ImageIORegion where
  m_ImageDimension : Nat
  m_Index : List Nat
  m_Size : List Nat
  deriving DecidableEq

/-- Fields of one `MINCImageIO` instance. -/
structure MINCImageIOFields where
  m_FileName : String
  m_PixelType : IOPixelType
  m_ComponentType : IOComponentType
  m_NumberOfComponents : Nat
  m_NumberOfDimensions : Nat
  m_Dimensions : List Nat
  m_Spacing : List ℚ
  m_Origin : List ℚ
  m_Direction : List (List ℚ)
  m_Strides : List Nat
  m_IORegion : ImageIORegion
  /-- The cached handle; `none` while the variable was never assigned. -/
  m_Volume : Option Nat
  m_VolumeValid : Bool
  /-- The array of dimension handles; `none` is the null pointer, and an
  entry `none` is an entry that was never written. -/
  m_VolumeDimension : Option (List (Option Dimension))
  deriving DecidableEq

/-- The instance together with the library it calls. -/
structure Sys where
  lib : LibState
  io : MINCImageIOFields

/-- Result of a call: a normal return or an exception, each with the state
reached, or no defined behaviour. -/
inductive Res (α : Type)
  | ok (a : α) (s : Sys)
  | exception (what : String) (s : Sys)
  | undefined

/-- Sequencing: an exception or undefined behaviour ends the call. -/
def Res.bind {α β : Type} (r : Res α) (k : α → Sys → Res β) : Res β :=
  match r with
  | .ok a s => k a s
  | .exception what s => .exception what s
  | .undefined => .undefined

/-- A loop `for (d = 0; d < n; ++d) body` over the indices listed. -/
def forLoop (body : Nat → Sys → Res Unit) : List Nat → Sys → Res Unit
  | [], s => .ok () s
  | d :: ds, s => (body d s).bind fun _ s => forLoop body ds s

/-- The call `std::vector::resize(n)`: keeps the leading entries, fills the rest. -/
def resize {α : Type} (v : List α) (n : Nat) (fill : α) : List α :=
  (v ++ List.replicate (n - v.length) fill).take n

/-- The setter `ImageIOBase::SetDimensions(i, dim)`. -/
def SetDimensions (i dim : Nat) (io : MINCImageIOFields) : MINCImageIOFields :=
  if i ≥ io.m_Dimensions.length then io else { io with m_Dimensions := io.m_Dimensions.set i dim }

/-- The setter `ImageIOBase::SetSpacing(i, spacing)`. -/
def SetSpacing (i : Nat) (spacing : ℚ) (io : MINCImageIOFields) : MINCImageIOFields :=
  if i ≥ io.m_Spacing.length then io else { io with m_Spacing := io.m_Spacing.set i spacing }

/-- The setter `ImageIOBase::SetOrigin(i, origin)`. -/
def SetOrigin (i : Nat) (origin : ℚ) (io : MINCImageIOFields) : MINCImageIOFields :=
  if i ≥ io.m_Origin.length then io else { io with m_Origin := io.m_Origin.set i origin }

/-- The setter `ImageIOBase::SetDirection(i, direction)`. -/
def SetDirection (i : Nat) (direction : List ℚ) (io : MINCImageIOFields) : MINCImageIOFields :=
  if i ≥ io.m_Direction.length then io
  else { io with m_Direction := io.m_Direction.set i direction }

/-- The setter `ImageIOBase::SetNumberOfDimensions(dim)`: when the count
changes, every per-dimension vector is resized and reset to unit spacing, zero
origin and identity direction. -/
def SetNumberOfDimensions (dim : Nat) (io : MINCImageIOFields) : MINCImageIOFields :=
  if dim ≠ io.m_NumberOfDimensions then
    let io := { io with
      m_Origin := resize io.m_Origin dim 0
      m_Spacing := resize io.m_Spacing dim 0
      m_Direction := resize io.m_Direction dim []
      m_Strides := resize io.m_Strides (dim + 2) 0
      m_NumberOfDimensions := dim
      m_Dimensions := resize io.m_Dimensions dim 0 }
    (List.range dim).foldl
      (fun io i =>
        SetSpacing i 1 (SetOrigin i 0
          (SetDirection i ((List.range dim).map fun j => if i = j then (1 : ℚ) else 0) io)))
      io
  else io

/-- The getter `ImageIOBase::GetComponentSize()`: `sizeof` of the component
type, an exception (`none`) for the unknown type. -/
def GetComponentSize (io : MINCImageIOFields) : Option Nat :=
  match io.m_ComponentType with
  | .UCHAR => some 1
  | .CHAR => some 1
  | .USHORT => some 2
  | .SHORT => some 2
  | .UINT => some 4
  | .INT => some 4
  | .ULONG => some 8
  | .LONG => some 8
  | .FLOAT => some 4
  | .DOUBLE => some 8
  | .UNKNOWNCOMPONENTTYPE => none

/-- An unchecked store `v[i] = x`; `none` when `i` is past the end. -/
def storeAt {α : Type} (v : List α) (i : Nat) (x : α) : Option (List α) :=
  if i < v.length then some (v.set i x) else none

/-- The loop of `ImageIOBase::ComputeStrides()`:
`m_Strides[i] = m_Dimensions[i-2] * m_Strides[i-1]` for the `i` listed. -/
def computeStridesLoop (dimensions : List Nat) : List Nat → List Nat → Option (List Nat)
  | [], strides => some strides
  | i :: rest, strides =>
    match dimensions[i - 2]?, strides[i - 1]? with
    | some d, some p => (storeAt strides i (d * p)).bind (computeStridesLoop dimensions rest)
    | _, _ => none

/-- The method `ImageIOBase::ComputeStrides()`; it writes `m_Strides` only. -/
def ComputeStrides (s : Sys) : Res Unit :=
  match GetComponentSize s.io with
  | none => .exception "Unknown component type" s
  | some size =>
    match (storeAt s.io.m_Strides 0 size).bind
        (fun st => storeAt st 1 (s.io.m_NumberOfComponents * size)) with
    | none => .undefined
    | some st =>
      match computeStridesLoop s.io.m_Dimensions
          ((List.range (s.io.m_NumberOfDimensions + 2)).drop 2) st with
      | none => .undefined
      | some st => .ok () { s with io := { s.io with m_Strides := st } }

/-- The state built by the constructor `MINCImageIO::MINCImageIO()` on top of
the constructor of `ImageIOBase`: no dimensions, `m_VolumeValid(false)`,
`m_VolumeDimension(0)`, and `m_Volume` not assigned. -/
def MINCImageIOFields.new : MINCImageIOFields :=
  { m_FileName := ""
    m_PixelType := .SCALAR
    m_ComponentType := .UNKNOWNCOMPONENTTYPE
    m_NumberOfComponents := 1
    m_NumberOfDimensions := 0
    m_Dimensions := []
    m_Spacing := []
    m_Origin := []
    m_Direction := []
    m_Strides := []
    m_IORegion := { m_ImageDimension := 2, m_Index := [0, 0], m_Size := [0, 0] }
    m_Volume := none
    m_VolumeValid := false
    m_VolumeDimension := none }

/-! ## Methods of `MINCImageIO` (`itkMINCImageIO.cxx`) -/

/-- The loop of `ConvertRegionToMINC` (lines 95-99) over the indices listed:
`starts[d] = region.GetIndex(d); sizes[d] = region.GetSize(d)`.  The result is
`none` when an access is out of bounds. -/
def convertRegionLoop (region : ImageIORegion) :
    List Nat → List (Option Nat) × List (Option Nat) →
      Option (List (Option Nat) × List (Option Nat))
  | [], arrays => some arrays
  | d :: ds, (starts, sizes) =>
    match region.m_Index[d]?, region.m_Size[d]? with
    | some index, some size =>
      match storeAt starts d (some index), storeAt sizes d (some size) with
      | some starts, some sizes => convertRegionLoop region ds (starts, sizes)
      | _, _ => none
    | _, _ => none

/-- The function `ConvertRegionToMINC` (lines 91-100): one entry of `starts`
and of `sizes` is written per dimension of the region. -/
def ConvertRegionToMINC (region : ImageIORegion) (starts sizes : List (Option Nat)) :
    Option (List (Option Nat) × List (Option Nat)) :=
  convertRegionLoop region (List.range region.m_ImageDimension) (starts, sizes)

/-- The method `MINCImageIO::CloseVolume` (lines 359-368). -/
def CloseVolume (s : Sys) : Res Unit :=
  if !s.io.m_VolumeValid then .ok () s
  else
    let s : Sys := { s with io := { s.io with m_VolumeValid := false } }
    match miclose_volume s.io.m_Volume s.lib with
    | .undefined => .undefined
    | .error lib => .ok () { lib := lib, io := { s.io with m_VolumeDimension := none } }
    | .value _ lib => .ok () { lib := lib, io := { s.io with m_VolumeDimension := none } }

/-- The method `MINCImageIO::CanReadFile` (lines 133-143). -/
def CanReadFile (filename : String) (s : Sys) : Res Bool :=
  match miopen_volume filename s.lib with
  | .undefined => .undefined
  | .error lib => .ok false { s with lib := lib }
  | .value volume lib =>
    match miclose_volume (some volume) lib with
    | .undefined => .undefined
    | .error lib => .ok true { s with lib := lib }
    | .value _ lib => .ok true { s with lib := lib }

/-- The method `MINCImageIO::ReadPixelInformation` (lines 219-255). -/
def ReadPixelInformation (s : Sys) : Res Unit :=
  match miget_data_class s.io.m_Volume s.lib with
  | .undefined => .undefined
  | .error lib => .exception "cannot get data class" { s with lib := lib }
  | .value dataClass lib =>
    let s : Sys := { s with lib := lib }
    let afterClass : Res Unit :=
      match dataClass with
      | .MI_CLASS_REAL | .MI_CLASS_INT | .MI_CLASS_LABEL =>
        .ok () { s with io := { s.io with m_PixelType := .SCALAR, m_NumberOfComponents := 1 } }
      | .MI_CLASS_COMPLEX =>
        .ok () { s with io := { s.io with m_PixelType := .COMPLEX, m_NumberOfComponents := 2 } }
      | _ => .exception "unhandled data class" s
    afterClass.bind fun _ s =>
      match miget_data_type s.io.m_Volume s.lib with
      | .undefined => .undefined
      | .error lib => .exception "cannot get data type" { s with lib := lib }
      | .value dataType lib =>
        let s : Sys := { s with lib := lib }
        let compType := ConvertDataTypeToITK dataType
        if compType = .UNKNOWNCOMPONENTTYPE then .exception "unhandled MINC data type" s
        else .ok () { s with io := { s.io with m_ComponentType := compType } }

/-- The element `m_VolumeDimension[dim]`; `none` when the array is null, `dim`
is past its end, or the entry was never written. -/
def volumeDimensionAt (io : MINCImageIOFields) (dim : Nat) : Option Dimension :=
  match io.m_VolumeDimension with
  | none => none
  | some array =>
    match array[dim]? with
    | some (some d) => some d
    | _ => none

/-- Body of the loop of `ReadShapeInformation` (lines 284-292). -/
def readShapeBody (dim : Nat) (s : Sys) : Res Unit :=
  match volumeDimensionAt s.io dim with
  | none => .undefined
  | some handle =>
    match miget_dimension_size handle s.lib with
    | .undefined => .undefined
    | .error lib => .exception "cannot get size of dimension" { s with lib := lib }
    | .value dimSize lib => .ok () { lib := lib, io := SetDimensions dim dimSize s.io }

/-- The method `MINCImageIO::ReadShapeInformation` (lines 257-293). -/
def ReadShapeInformation (s : Sys) : Res Unit :=
  match miget_volume_dimension_count s.io.m_Volume s.lib with
  | .undefined => .undefined
  | .error lib => .exception "cannot get number of dimensions" { s with lib := lib }
  | .value numDimensions lib =>
    let io := SetNumberOfDimensions numDimensions s.io
    let array : List (Option Dimension) := List.replicate numDimensions none
    let s : Sys := { lib := lib, io := { io with m_VolumeDimension := some array } }
    match miget_volume_dimensions s.io.m_Volume numDimensions s.lib with
    | .undefined => .undefined
    | .error lib => .exception "cannot get dimension meta-data" { s with lib := lib }
    | .value handles lib =>
      let array := handles.map some ++ array.drop handles.length
      let s : Sys := { lib := lib, io := { s.io with m_VolumeDimension := some array } }
      forLoop readShapeBody (List.range numDimensions) s

/-- The element `cosines[i]` of a `double[3]`, for `i < 3`. -/
def cosineAt (cosines : ℚ × ℚ × ℚ) : Nat → ℚ
  | 0 => cosines.1
  | 1 => cosines.2.1
  | _ => cosines.2.2

/-- The method `MINCImageIO::SetDirectionFromCosines` (lines 343-357). -/
def SetDirectionFromCosines (dim : Nat) (cosines : ℚ × ℚ × ℚ) (io : MINCImageIOFields) :
    MINCImageIOFields :=
  let direction : List ℚ :=
    (List.range io.m_NumberOfDimensions).map fun i =>
      if i < 3 then cosineAt cosines i else (if dim = i then 1 else 0)
  SetDirection dim direction io

/-- Body of the loop of `ReadImageToWorldInformation` (lines 298-340). -/
def readImageToWorldBody (dim : Nat) (s : Sys) : Res Unit :=
  match volumeDimensionAt s.io dim with
  | none => .undefined
  | some handle =>
    match miget_dimension_separation handle s.lib with
    | .undefined => .undefined
    | .error lib => .exception "cannot get spacing of dimension" { s with lib := lib }
    | .value spacing lib =>
      let flipAxis : Bool := decide (spacing < 0)
      let spacing := if flipAxis then spacing * -1 else spacing
      let s : Sys := { lib := lib, io := SetSpacing dim spacing s.io }
      match miget_dimension_start handle s.lib with
      | .undefined => .undefined
      | .error lib => .exception "cannot get origin of dimension" { s with lib := lib }
      | .value origin lib =>
        let s : Sys := { lib := lib, io := SetOrigin dim origin s.io }
        match miget_dimension_cosines handle s.lib with
        | .undefined => .undefined
        | .error lib =>
          .exception "cannot get direction cosines of dimension" { s with lib := lib }
        | .value cosines lib =>
          let cosines : ℚ × ℚ × ℚ :=
            if flipAxis then (cosines.1 * -1, cosines.2.1 * -1, cosines.2.2 * -1) else cosines
          let cosines : ℚ × ℚ × ℚ := (cosines.1 * -1, cosines.2.1 * -1, cosines.2.2)
          .ok () { lib := lib, io := SetDirectionFromCosines dim cosines s.io }

/-- The method `MINCImageIO::ReadImageToWorldInformation` (lines 295-341).  The
loop bound `GetNumberOfDimensions()` is not changed by the body. -/
def ReadImageToWorldInformation (s : Sys) : Res Unit :=
  forLoop readImageToWorldBody (List.range s.io.m_NumberOfDimensions) s

/-- The method `MINCImageIO::ReadImageInformation` (lines 145-161). -/
def ReadImageInformation (s : Sys) : Res Unit :=
  (CloseVolume s).bind fun _ s =>
    let filename := s.io.m_FileName
    match miopen_volume filename s.lib with
    | .undefined => .undefined
    | .error lib => .exception ("cannot read file " ++ filename) { s with lib := lib }
    | .value volume lib =>
      let s : Sys := { lib := lib, io := { s.io with m_Volume := some volume, m_VolumeValid := true } }
      (ReadPixelInformation s).bind fun _ s =>
        (ReadShapeInformation s).bind fun _ s =>
          (ReadImageToWorldInformation s).bind fun _ s =>
            ComputeStrides s

/-- The method `MINCImageIO::Read` (lines 163-183); the result is the content
of the caller's buffer. -/
def Read (s : Sys) : Res (List ℚ) :=
  let bufferDataType : mitype_t :=
    if s.io.m_PixelType = .COMPLEX then ConvertComplexDataTypeToMINC s.io.m_ComponentType
    else ConvertScalarDataTypeToMINC s.io.m_ComponentType
  let starts : List (Option Nat) := List.replicate s.io.m_NumberOfDimensions none
  let sizes : List (Option Nat) := List.replicate s.io.m_NumberOfDimensions none
  match ConvertRegionToMINC s.io.m_IORegion starts sizes with
  | none => .undefined
  | some (starts, sizes) =>
    match miget_real_value_hyperslab s.io.m_Volume bufferDataType starts sizes s.lib with
    | .undefined => .undefined
    | .error lib => .exception "error reading pixel values" { s with lib := lib }
    | .value buffer lib => .ok buffer { s with lib := lib }

/-! ## Concrete files used to evaluate the model -/

/-- A spatial dimension with `size` samples, start `0`, step `1`. -/
def plainDimension (size : Nat) (cosines : ℚ × ℚ × ℚ) : Dimension :=
  { size := size, separation := 1, start := 0, cosines := cosines, regularlySampled := true }

/-- The 4x4 file of the test `ReadTestSubImage2D`: unsigned bytes `0..15`, the
second dimension varying fastest. -/
def file4x4 : Volume :=
  { dataClass := .MI_CLASS_REAL
    dataType := .MI_TYPE_UBYTE
    dimensions := [plainDimension 4 (1, 0, 0), plainDimension 4 (0, 1, 0)]
    voxel := fun index => ((4 * index.getD 0 0 + index.getD 1 0 : Nat) : ℚ) }

/-- A library in which `test.mnc` is `file4x4` and no query fails. -/
def lib4x4 : LibState :=
  { files := [("test.mnc", file4x4)], handles := [], next := 1, fails := fun _ => false, log := [] }

/-- A fresh instance with its file name set to `test.mnc`. -/
def fresh4x4 : Sys :=
  { lib := lib4x4, io := { MINCImageIOFields.new with m_FileName := "test.mnc" } }

/-- Projection: the state a call ended in, when it has one. -/
def Res.state? {α : Type} : Res α → Option Sys
  | .ok _ s => some s
  | .exception _ s => some s
  | .undefined => none

/-- Projection: the value of a normal return. -/
def Res.value? {α : Type} : Res α → Option α
  | .ok a _ => some a
  | _ => none

/-- The component type the specification lists for each stored type, `none` for
a stored type outside the twelve mapped ones.  (Specification side.) -/
def listedComponentType : mitype_t → Option IOComponentType
  | .MI_TYPE_BYTE => some .CHAR
  | .MI_TYPE_UBYTE => some .UCHAR
  | .MI_TYPE_SHORT => some .SHORT
  | .MI_TYPE_SCOMPLEX => some .SHORT
  | .MI_TYPE_USHORT => some .USHORT
  | .MI_TYPE_INT => some .INT
  | .MI_TYPE_ICOMPLEX => some .INT
  | .MI_TYPE_UINT => some .UINT
  | .MI_TYPE_FLOAT => some .FLOAT
  | .MI_TYPE_FCOMPLEX => some .FLOAT
  | .MI_TYPE_DOUBLE => some .DOUBLE
  | .MI_TYPE_DCOMPLEX => some .DOUBLE
  | _ => none

/-- The state of `fresh4x4` right after `ReadImageInformation` has opened the
file and before any metadata is read. -/
def opened4x4 : Sys :=
  { lib := { lib4x4 with
      handles := [(1, file4x4)], next := 2, log := [.miopen_volume "test.mnc"] }
    io := { fresh4x4.io with m_Volume := some 1, m_VolumeValid := true } }

/-! ## Effect of one loop iteration on the instance fields

The definitions below restate the normal path of a loop body as a function of
the instance fields alone; lemmas connect them to the bodies. -/

/-- The cosines handed to `SetDirectionFromCosines` for a dimension: negated
when the step is negative, then components 0 and 1 negated (lines 327-338). -/
def cosinesForDirection (handle : Dimension) : ℚ × ℚ × ℚ :=
  let flipAxis : Bool := decide (handle.separation < 0)
  let cosines : ℚ × ℚ × ℚ :=
    if flipAxis then
      (handle.cosines.1 * -1, handle.cosines.2.1 * -1, handle.cosines.2.2 * -1)
    else handle.cosines
  (cosines.1 * -1, cosines.2.1 * -1, cosines.2.2)

/-- The spacing handed to `SetSpacing` for a dimension (lines 308-311). -/
def spacingForDimension (handle : Dimension) : ℚ :=
  if decide (handle.separation < 0) then handle.separation * -1 else handle.separation

/-- The fields after a normal pass through `readImageToWorldBody`. -/
def worldEffect (dim : Nat) (handle : Dimension) (io : MINCImageIOFields) :
    MINCImageIOFields :=
  SetDirectionFromCosines dim (cosinesForDirection handle)
    (SetOrigin dim handle.start (SetSpacing dim (spacingForDimension handle) io))

/-- The direction vector built by `SetDirectionFromCosines` for axis `dim` of an
image with `n` dimensions. -/
def directionVector (n dim : Nat) (cosines : ℚ × ℚ × ℚ) : List ℚ :=
  (List.range n).map fun i => if i < 3 then cosineAt cosines i else (if dim = i then 1 else 0)

/-- What `ReadImageToWorldInformation` is to leave at index `d`, for a file
with the dimensions `dims`. -/
def WorldAt (dims : List Dimension) (d : Nat) (io : MINCImageIOFields) : Prop :=
  ∃ handle, dims[d]? = some handle ∧
    io.m_Spacing[d]? = some (spacingForDimension handle) ∧
    io.m_Origin[d]? = some handle.start ∧
    io.m_Direction[d]? = some (directionVector dims.length d (cosinesForDirection handle))

/-- The fields `ReadImageToWorldInformation` relies on: the handle array holds
the dimensions `dims`, and the per-dimension vectors have one entry each. -/
def WorldReady (dims : List Dimension) (io : MINCImageIOFields) : Prop :=
  io.m_VolumeDimension = some (dims.map some) ∧
  io.m_NumberOfDimensions = dims.length ∧
  io.m_Spacing.length = dims.length ∧
  io.m_Origin.length = dims.length ∧
  io.m_Direction.length = dims.length

/-- Projection: the state of a normal return. -/
def Res.okState? {α : Type} : Res α → Option Sys
  | .ok _ s => some s
  | _ => none

/-- A four-dimensional file: the first dimension has a negative step, and the
library reports the cosines `(1, 0, 0)` for the fourth. -/
def file4D : Volume :=
  { dataClass := .MI_CLASS_REAL
    dataType := .MI_TYPE_SHORT
    dimensions :=
      [ { size := 2, separation := -2, start := -1, cosines := (1, 0, 0),
          regularlySampled := true },
        { size := 3, separation := 3, start := 2, cosines := (0, 1, 0),
          regularlySampled := true },
        { size := 2, separation := 1, start := -3, cosines := (0, 0, 1),
          regularlySampled := true },
        { size := 5, separation := 4, start := 0, cosines := (1, 0, 0),
          regularlySampled := true } ]
    voxel := fun _ => 0 }

/-- The file `file4D` with the step of its first dimension made positive. -/
def file4DPositive : Volume :=
  { file4D with
    dimensions :=
      { size := 2, separation := 2, start := -1, cosines := (1, 0, 0),
        regularlySampled := true } :: file4D.dimensions.drop 1 }

/-- A newly constructed instance with its file name set to `test.mnc`, in a
library where that file is the volume `v` and no query fails. -/
def freshOn (v : Volume) : Sys :=
  { lib := { files := [("test.mnc", v)], handles := [], next := 1,
             fails := fun _ => false, log := [] }
    io := { MINCImageIOFields.new with m_FileName := "test.mnc" } }

/-- The instance `freshOn v` after `ReadImageInformation` has opened the file,
under the handle `1`, and before it reads any metadata. -/
def openedOn (v : Volume) : Sys :=
  { lib := { files := [("test.mnc", v)], handles := [(1, v)], next := 2,
             fails := fun _ => false, log := [.miopen_volume "test.mnc"] }
    io := { MINCImageIOFields.new with
      m_FileName := "test.mnc", m_Volume := some 1, m_VolumeValid := true } }

/-- The state `openedOn v` after `ReadPixelInformation` and
`ReadShapeInformation`, as `ReadImageInformation` runs them. -/
def shapedOn (v : Volume) : Sys :=
  match ((ReadPixelInformation (openedOn v)).bind fun _ s => ReadShapeInformation s).okState? with
  | some s => s
  | none => openedOn v

/-- The fields `ReadShapeInformation` has set up before its loop: the handle
array holds the dimensions `dims`, and `m_Dimensions` has one entry each. -/
def ShapeReady (dims : List Dimension) (io : MINCImageIOFields) : Prop :=
  io.m_VolumeDimension = some (dims.map some) ∧ io.m_Dimensions.length = dims.length

/-- What the loop of `ReadShapeInformation` is to leave at index `d`. -/
def ShapeAt (dims : List Dimension) (d : Nat) (io : MINCImageIOFields) : Prop :=
  ∃ handle, dims[d]? = some handle ∧ io.m_Dimensions[d]? = some handle.size

/-- The invariant of `ImageIOBase` on its per-dimension vectors: one entry per
dimension. -/
def VectorsSized (io : MINCImageIOFields) : Prop :=
  io.m_Dimensions.length = io.m_NumberOfDimensions ∧
  io.m_Spacing.length = io.m_NumberOfDimensions ∧
  io.m_Origin.length = io.m_NumberOfDimensions ∧
  io.m_Direction.length = io.m_NumberOfDimensions

/-- The buffer offset the specification gives for a region coordinate:
`((i_0 * m_1 + i_1) * m_2 + ...) + i_(k-1)`, the last dimension fastest.
(Specification side.) -/
def bufferOffset (sizes coords : List Nat) : Nat :=
  (List.zip sizes coords).foldl (fun acc p => acc * p.1 + p.2) 0

/-- The setter `ImageIOBase::SetIORegion(region)`. -/
def SetIORegion (region : ImageIORegion) (io : MINCImageIOFields) : MINCImageIOFields :=
  { io with m_IORegion := region }

/-- A two-dimensional region, as the tests build it. -/
def region2D (index0 index1 size0 size1 : Nat) : ImageIORegion :=
  { m_ImageDimension := 2, m_Index := [index0, index1], m_Size := [size0, size1] }

/-- The instance of `fresh4x4` after `ReadImageInformation`. -/
def informed4x4 : Sys :=
  match (ReadImageInformation fresh4x4).okState? with
  | some s => s
  | none => fresh4x4

/-- The buffer read from the 4x4 file for a region. -/
def read4x4 (region : ImageIORegion) : Option (List ℚ) :=
  (Read { informed4x4 with io := SetIORegion region informed4x4.io }).value?

/-- What `ConvertRegionToMINC` is to leave at entry `d` of the two arrays: the
index and the size of the region in dimension `d`. -/
def RegionAt (region : ImageIORegion) (d : Nat) (starts sizes : List (Option Nat)) : Prop :=
  ∃ index size, region.m_Index[d]? = some index ∧ region.m_Size[d]? = some size ∧
    starts[d]? = some (some index) ∧ sizes[d]? = some (some size)

/-- Projection: the message of a raised exception. -/
def Res.what? {α : Type} : Res α → Option String
  | .exception what _ => some what
  | _ => none

/-- The instance of `informed4x4` asked to read a file that does not exist. -/
def reopenMissing4x4 : Sys :=
  { informed4x4 with io := { informed4x4.io with m_FileName := "missing.mnc" } }

/-- The instance after that `ReadImageInformation` has failed to open the file,
with the region of the test `ReadTestSubImage2D` set. -/
def closed4x4 : Sys :=
  match (ReadImageInformation reopenMissing4x4).state? with
  | some s => { s with io := SetIORegion (region2D 0 0 2 3) s.io }
  | none => reopenMissing4x4

/-! ## Fixtures for the claims on unmapped types and on the handle -/

/-- The setter `ImageIOBase::SetComponentType(type)`. -/
def SetComponentType (componentType : IOComponentType) (io : MINCImageIOFields) :
    MINCImageIOFields :=
  { io with m_ComponentType := componentType }

/-- The setter `ImageIOBase::SetFileName(filename)`. -/
def SetFileName (filename : String) (io : MINCImageIOFields) : MINCImageIOFields :=
  { io with m_FileName := filename }

/-- The instance `freshOn v` after `ReadImageInformation`. -/
def informedOn (v : Volume) : Sys :=
  match (ReadImageInformation (freshOn v)).okState? with
  | some s => s
  | none => freshOn v

/-- A 4x4 file of data class COMPLEX whose stored type is the unsigned byte. -/
def fileComplexUByte : Volume :=
  { file4x4 with dataClass := .MI_CLASS_COMPLEX }

/-! ## Sequences of calls on one instance -/

/-- A call a user of the instance makes.  The destructor `~MINCImageIO` (lines
116-119) is a call of `CloseVolume`. -/
inductive Op
  | SetFileName (filename : String)
  | SetIORegion (region : ImageIORegion)
  | CanReadFile (filename : String)
  | ReadImageInformation
  | Read
  | CloseVolume
  | destructor

/-- The state a call ends in, after a normal return or an exception; `none`
when the call has no defined behaviour. -/
def Op.run (op : Op) (s : Sys) : Option Sys :=
  match op with
  | .SetFileName filename => some { s with io := itk.SetFileName filename s.io }
  | .SetIORegion region => some { s with io := itk.SetIORegion region s.io }
  | .CanReadFile filename => (itk.CanReadFile filename s).state?
  | .ReadImageInformation => (itk.ReadImageInformation s).state?
  | .Read => (itk.Read s).state?
  | .CloseVolume => (itk.CloseVolume s).state?
  | .destructor => (itk.CloseVolume s).state?

/-- The state a sequence of calls ends in. -/
def runOps : List Op → Sys → Option Sys
  | [], s => some s
  | op :: ops, s => (op.run s).bind (runOps ops)

/-- A newly constructed instance, in a library in which no handle is open. -/
def Initial (s : Sys) : Prop :=
  s.io = MINCImageIOFields.new ∧ s.lib.handles = []

/-- The handles the library holds open are exactly the one the instance holds
when `m_VolumeValid` is true, and none otherwise; a closed instance has no
dimension array; handles still to be handed out are not in use. -/
def HandleInvariant (s : Sys) : Prop :=
  (∀ e ∈ s.lib.handles, e.1 < s.lib.next) ∧
  (s.io.m_VolumeValid = true →
    ∃ h v, s.io.m_Volume = some h ∧ s.lib.handles = [(h, v)]) ∧
  (s.io.m_VolumeValid = false → s.lib.handles = [] ∧ s.io.m_VolumeDimension = none)

/-- The per-dimension vectors have one entry per dimension, and so has the
array of dimension handles when there is one. -/
def ShapeInvariant (io : MINCImageIOFields) : Prop :=
  VectorsSized io ∧
  ∀ array, io.m_VolumeDimension = some array → array.length = io.m_NumberOfDimensions

/-- What the steps of `ReadImageInformation` after the open leave alone: the
open handles, the handle counter, the cached handle and its flag; and they keep
`ShapeInvariant`. -/
def Stable (s s' : Sys) : Prop :=
  s'.lib.handles = s.lib.handles ∧ s'.lib.next = s.lib.next ∧
  s'.io.m_Volume = s.io.m_Volume ∧ s'.io.m_VolumeValid = s.io.m_VolumeValid ∧
  (ShapeInvariant s.io → ShapeInvariant s'.io)

/-- A newly constructed instance, in a library where `test.mnc` is the volume
`v`, no handle is open and no query fails. -/
def constructedOn (v : Volume) : Sys :=
  { lib := { files := [("test.mnc", v)], handles := [], next := 1,
             fails := fun _ => false, log := [] }
    io := MINCImageIOFields.new }

/-! ## Fixtures for the claims on the open state and on the order of dimensions -/

/-- A 4x4 file whose data class is a record class, which the reader does not
handle. -/
def fileRecordClass : Volume :=
  { file4x4 with dataClass := .MI_CLASS_UNIFORM_RECORD }

/-- A file with a single regularly sampled dimension. -/
def file1D : Volume :=
  { file4x4 with dimensions := [plainDimension 4 (1, 0, 0)] }

/-- The x dimension of the test `OriginTest3D`: 7 samples, start `-1`. -/
def dimX : Dimension :=
  { size := 7, separation := 2, start := -1, cosines := (1, 0, 0), regularlySampled := true }

/-- The y dimension of the test `OriginTest3D`: 5 samples, start `-2`. -/
def dimY : Dimension :=
  { size := 5, separation := 3, start := -2, cosines := (0, 1, 0), regularlySampled := true }

/-- The z dimension of the test `OriginTest3D`: 3 samples, start `-3`. -/
def dimZ : Dimension :=
  { size := 3, separation := 1, start := -3, cosines := (0, 0, 1), regularlySampled := true }

/-- The file of the test `OriginTest3D` created with `-zxy`: the dimensions are
declared in the order z, x, y. -/
def fileZXY : Volume :=
  { dataClass := .MI_CLASS_REAL
    dataType := .MI_TYPE_UBYTE
    dimensions := [dimZ, dimX, dimY]
    voxel := fun _ => 0 }

/-! ## Lemmas on `rfind` -/

theorem rfindFrom_le_or_npos (s pat : List Char) (pos : Nat) :
    rfindFrom s pat pos ≤ pos ∨ rfindFrom s pat pos = npos := by
  induction pos with
  | zero =>
    unfold rfindFrom
    split <;> simp
  | succ n ih =>
    unfold rfindFrom
    split
    · simp
    · rcases ih with h | h
      · left; omega
      · right; exact h

theorem rfindFrom_eq_self_iff (s pat : List Char) (pos : Nat) (hpos : pos < npos) :
    rfindFrom s pat pos = pos ↔ compareAt s pat pos = true := by
  cases pos with
  | zero =>
    unfold rfindFrom
    split
    · simp [*]
    · simp [*, npos]
  | succ n =>
    unfold rfindFrom
    split
    · simp [*]
    · rename_i h
      simp only [h]
      constructor
      · intro h2
        rcases rfindFrom_le_or_npos s pat n with h3 | h3
        · omega
        · omega
      · intro h2; cases h2

theorem compareAt_end_iff (s pat : List Char) (h : pat.length ≤ s.length) :
    compareAt s pat (s.length - pat.length) = true ↔ pat <:+ s := by
  unfold compareAt
  rw [List.suffix_iff_eq_drop]
  have hlen : (s.drop (s.length - pat.length)).length = pat.length := by
    simp; omega
  have htake : (s.drop (s.length - pat.length)).take pat.length
      = s.drop (s.length - pat.length) := by
    rw [List.take_of_length_le]; omega
  rw [beq_iff_eq, htake]
  exact eq_comm

/-- The guard of one branch of `CanWriteFile`, for a pattern of length `k`. -/
theorem extension_check_iff (s pat : List Char) (k : Nat) (hk : pat.length = k)
    (hk0 : 0 < k) (hk64 : k < 2 ^ 64) (hs : s.length < 2 ^ 64) :
    (rfind s pat != npos && decide (rfind s pat > 0)
      && rfind s pat == (s.length + 2 ^ 64 - k) % 2 ^ 64) = true
    ↔ pat <:+ s ∧ k < s.length := by
  subst hk
  by_cases hle : pat.length ≤ s.length
  · have hmod : (s.length + 2 ^ 64 - pat.length) % 2 ^ 64 = s.length - pat.length := by
      have : s.length + 2 ^ 64 - pat.length = (s.length - pat.length) + 2 ^ 64 := by omega
      rw [this, Nat.add_mod_right, Nat.mod_eq_of_lt (by omega)]
    have hnp : s.length - pat.length < npos := by unfold npos; omega
    simp only [rfind, hle, if_true, hmod, Bool.and_eq_true, bne_iff_ne, ne_eq,
      decide_eq_true_eq, beq_iff_eq]
    rw [← compareAt_end_iff s pat hle]
    constructor
    · rintro ⟨⟨_, h2⟩, h3⟩
      refine ⟨(rfindFrom_eq_self_iff s pat _ hnp).1 h3, ?_⟩
      omega
    · rintro ⟨h1, h2⟩
      have h3 := (rfindFrom_eq_self_iff s pat _ hnp).2 h1
      refine ⟨⟨?_, ?_⟩, h3⟩
      · omega
      · omega
  · simp only [rfind, hle, if_false]
    constructor
    · intro h; simp at h
    · rintro ⟨_, h2⟩; omega

/-! ## Claims on `CanWriteFile` -/

theorem ite_ite_true_iff (c1 c2 : Bool) :
    (if c1 = true then true else if c2 = true then true else false) = true ↔
      (c1 = true ∨ c2 = true) := by
  cases c1 <;> cases c2 <;> decide

theorem CanWriteFile_eq_true_iff (s : String) (hs : s.length < 2 ^ 64) :
    CanWriteFile s = true ↔
      (".mnc".data <:+ s.data.map tolower ∧ 4 < s.length) ∨
      (".mnc2".data <:+ s.data.map tolower ∧ 5 < s.length) := by
  have hlen : (s.data.map tolower).length = s.length := by
    rw [List.length_map]; rfl
  have h4 := extension_check_iff (s.data.map tolower) ".mnc".data 4 rfl (by decide)
    (by decide) (by rw [hlen]; exact hs)
  have h5 := extension_check_iff (s.data.map tolower) ".mnc2".data 5 rfl (by decide)
    (by decide) (by rw [hlen]; exact hs)
  rw [hlen] at h4 h5
  rw [← h4, ← h5, ← hlen]
  exact ite_ite_true_iff _ _

theorem CanWriteFile_congr (s t : String)
    (h : s.data.map tolower = t.data.map tolower) : CanWriteFile s = CanWriteFile t := by
  unfold CanWriteFile
  simp only [h]

/-- C1: `CanWriteFile(s)` returns true exactly when the ASCII-lower-cased `s`
ends with ".mnc" and is longer than 4 characters, or ends with ".mnc2" and is
longer than 5 characters; it returns false for "", "blah", ".mnc" and ".mnc2";
and two strings that differ only in letter case get the same result. -/
theorem CanWriteFile_suffix_contract (s t : String) (hs : s.length < 2 ^ 64) :
    (CanWriteFile s = true ↔
      (".mnc".data <:+ s.data.map tolower ∧ 4 < s.length) ∨
      (".mnc2".data <:+ s.data.map tolower ∧ 5 < s.length)) ∧
    CanWriteFile "" = false ∧ CanWriteFile "blah" = false ∧
    CanWriteFile ".mnc" = false ∧ CanWriteFile ".mnc2" = false ∧
    (s.data.map tolower = t.data.map tolower → CanWriteFile s = CanWriteFile t) :=
  ⟨CanWriteFile_eq_true_iff s hs, by decide, by decide, by decide, by decide,
    CanWriteFile_congr s t⟩

/-- Witness of C1 at "good.MNC" and "GOOD.mnc": both are accepted. -/
theorem CanWriteFile_suffix_contract_witness :
    CanWriteFile "good.MNC" = true ∧ CanWriteFile "good.MNC" = CanWriteFile "GOOD.mnc" :=
  have h := CanWriteFile_suffix_contract "good.MNC" "GOOD.mnc" (by decide)
  ⟨h.1.2 (Or.inl ⟨by decide, by decide⟩), h.2.2.2.2.2 (by decide)⟩

/-- C2, as stated, fails: the path "dir/.mnc" has the filename ".mnc", which is
the bare extension, and `CanWriteFile` accepts it. -/
theorem CanWriteFile_directory_counterexample :
    ¬ (∀ path : String, path.length < 2 ^ 64 →
        ((filenameOfPath path.data).map tolower = ".mnc".data ∨
          (filenameOfPath path.data).map tolower = ".mnc2".data) →
        CanWriteFile path = false) := by
  intro h
  have h1 := h "dir/.mnc" (by decide) (Or.inl (by decide))
  revert h1
  decide

/-- C2, amended: when the whole string passed is, ignoring letter case, exactly
".mnc" or ".mnc2", `CanWriteFile` returns false. -/
theorem CanWriteFile_rejects_bare_extension (path : String)
    (h : path.data.map tolower = ".mnc".data ∨ path.data.map tolower = ".mnc2".data) :
    CanWriteFile path = false := by
  rcases h with h | h
  · rw [CanWriteFile_congr path ".mnc" (by rw [h]; decide)]; decide
  · rw [CanWriteFile_congr path ".mnc2" (by rw [h]; decide)]; decide

/-- Witness of the amended C2 at ".MNC2". -/
theorem CanWriteFile_rejects_bare_extension_witness : CanWriteFile ".MNC2" = false :=
  CanWriteFile_rejects_bare_extension ".MNC2" (Or.inr (by decide))

/-! ## Claims on the type mapping -/

/-- C3: the two directions of the type mapping are mutually inverse on the
supported types, for the eight scalar types and for the four complex types. -/
theorem type_mapping_mutually_inverse :
    (∀ c ∈ [IOComponentType.UCHAR, .CHAR, .USHORT, .SHORT, .UINT, .INT, .FLOAT, .DOUBLE],
      ConvertDataTypeToITK (ConvertScalarDataTypeToMINC c) = c) ∧
    (∀ t ∈ [mitype_t.MI_TYPE_UBYTE, .MI_TYPE_BYTE, .MI_TYPE_USHORT, .MI_TYPE_SHORT,
        .MI_TYPE_UINT, .MI_TYPE_INT, .MI_TYPE_FLOAT, .MI_TYPE_DOUBLE],
      ConvertScalarDataTypeToMINC (ConvertDataTypeToITK t) = t) ∧
    (∀ c ∈ [IOComponentType.SHORT, .INT, .FLOAT, .DOUBLE],
      ConvertDataTypeToITK (ConvertComplexDataTypeToMINC c) = c) ∧
    (∀ t ∈ [mitype_t.MI_TYPE_SCOMPLEX, .MI_TYPE_ICOMPLEX, .MI_TYPE_FCOMPLEX,
        .MI_TYPE_DCOMPLEX],
      ConvertComplexDataTypeToMINC (ConvertDataTypeToITK t) = t) := by
  refine ⟨?_, ?_, ?_, ?_⟩ <;> decide

/-- Witness of C3 at `UINT`, `MI_TYPE_BYTE`, `FLOAT` and `MI_TYPE_ICOMPLEX`. -/
theorem type_mapping_mutually_inverse_witness :
    ConvertDataTypeToITK (ConvertScalarDataTypeToMINC .UINT) = .UINT ∧
    ConvertScalarDataTypeToMINC (ConvertDataTypeToITK .MI_TYPE_BYTE) = .MI_TYPE_BYTE ∧
    ConvertDataTypeToITK (ConvertComplexDataTypeToMINC .FLOAT) = .FLOAT ∧
    ConvertComplexDataTypeToMINC (ConvertDataTypeToITK .MI_TYPE_ICOMPLEX) = .MI_TYPE_ICOMPLEX :=
  ⟨type_mapping_mutually_inverse.1 _ (by decide),
    type_mapping_mutually_inverse.2.1 _ (by decide),
    type_mapping_mutually_inverse.2.2.1 _ (by decide),
    type_mapping_mutually_inverse.2.2.2 _ (by decide)⟩

/-! ## The concrete states are the ones the code reaches -/

/-- On a newly constructed instance `ReadImageInformation` opens the file and
runs the four steps from the state `openedOn v`. -/
theorem ReadImageInformation_freshOn (v : Volume) :
    ReadImageInformation (freshOn v) =
      (ReadPixelInformation (openedOn v)).bind fun _ s =>
        (ReadShapeInformation s).bind fun _ s =>
          (ReadImageToWorldInformation s).bind fun _ s => ComputeStrides s :=
  rfl

theorem opened4x4_eq : opened4x4 = openedOn file4x4 ∧ fresh4x4 = freshOn file4x4 :=
  ⟨rfl, rfl⟩

/-! ## Claims on `ReadPixelInformation` -/

/-- C4: when the class and type queries succeed, `ReadPixelInformation` returns
normally exactly when the data class is REAL, INT, LABEL or COMPLEX and the
stored type is one of the twelve mapped types, and raises an exception
otherwise; on a normal return the pixel type is SCALAR with 1 component for
REAL, INT and LABEL, COMPLEX with 2 components for COMPLEX, and the component
type is the one listed for the stored type. -/
theorem ReadPixelInformation_contract (s : Sys) (h : Nat) (v : Volume)
    (hvol : s.io.m_Volume = some h) (hopen : s.lib.handles.lookup h = some v)
    (hclass : s.lib.fails (.miget_data_class h) = false)
    (htype : s.lib.fails (.miget_data_type h) = false) :
    ((∃ s', ReadPixelInformation s = .ok () s') ↔
      (v.dataClass ∈ [miclass_t.MI_CLASS_REAL, .MI_CLASS_INT, .MI_CLASS_LABEL, .MI_CLASS_COMPLEX]
        ∧ (listedComponentType v.dataType).isSome = true)) ∧
    ((¬ ∃ s', ReadPixelInformation s = .ok () s') →
      ∃ what s', ReadPixelInformation s = .exception what s') ∧
    (∀ s', ReadPixelInformation s = .ok () s' →
      (v.dataClass ∈ [miclass_t.MI_CLASS_REAL, .MI_CLASS_INT, .MI_CLASS_LABEL] →
        s'.io.m_PixelType = .SCALAR ∧ s'.io.m_NumberOfComponents = 1) ∧
      (v.dataClass = .MI_CLASS_COMPLEX →
        s'.io.m_PixelType = .COMPLEX ∧ s'.io.m_NumberOfComponents = 2) ∧
      some s'.io.m_ComponentType = listedComponentType v.dataType) := by
  cases hc : v.dataClass <;> cases ht : v.dataType <;>
    simp [ReadPixelInformation, miget_data_class, miget_data_type, LibState.volumeOf,
      LibState.record, Res.bind, hvol, hopen, hclass, htype, hc, ht, ConvertDataTypeToITK,
      listedComponentType]

/-- Witness of C4 on the unsigned-byte file `file4x4`, just opened. -/
theorem ReadPixelInformation_contract_witness :
    ∃ s', ReadPixelInformation opened4x4 = .ok () s' :=
  (ReadPixelInformation_contract opened4x4 1 file4x4 rfl rfl rfl rfl).1.2
    ⟨by decide, by decide⟩

/-! ## Lemmas on the `ImageIOBase` setters and on the world loop -/

theorem SetSpacing_eq (i : Nat) (x : ℚ) (io : MINCImageIOFields) :
    SetSpacing i x io = { io with m_Spacing := io.m_Spacing.set i x } := by
  unfold SetSpacing
  split
  · rw [List.set_eq_of_length_le (by omega)]
  · rfl

theorem SetOrigin_eq (i : Nat) (x : ℚ) (io : MINCImageIOFields) :
    SetOrigin i x io = { io with m_Origin := io.m_Origin.set i x } := by
  unfold SetOrigin
  split
  · rw [List.set_eq_of_length_le (by omega)]
  · rfl

theorem SetDirection_eq (i : Nat) (x : List ℚ) (io : MINCImageIOFields) :
    SetDirection i x io = { io with m_Direction := io.m_Direction.set i x } := by
  unfold SetDirection
  split
  · rw [List.set_eq_of_length_le (by omega)]
  · rfl

theorem SetDimensions_eq (i x : Nat) (io : MINCImageIOFields) :
    SetDimensions i x io = { io with m_Dimensions := io.m_Dimensions.set i x } := by
  unfold SetDimensions
  split
  · rw [List.set_eq_of_length_le (by omega)]
  · rfl

theorem worldEffect_eq (dim : Nat) (handle : Dimension) (io : MINCImageIOFields) :
    worldEffect dim handle io =
      { io with
        m_Spacing := io.m_Spacing.set dim (spacingForDimension handle)
        m_Origin := io.m_Origin.set dim handle.start
        m_Direction := io.m_Direction.set dim
          (directionVector io.m_NumberOfDimensions dim (cosinesForDirection handle)) } := by
  simp only [worldEffect, SetDirectionFromCosines, SetDirection_eq, SetOrigin_eq, SetSpacing_eq,
    directionVector]

theorem volumeDimensionAt_of_array (dims : List Dimension) (io : MINCImageIOFields)
    (h : io.m_VolumeDimension = some (dims.map some)) (d : Nat) :
    volumeDimensionAt io d = dims[d]? := by
  unfold volumeDimensionAt
  rw [h]
  simp only [List.getElem?_map]
  cases dims[d]? <;> rfl

theorem WorldReady_worldEffect (dims : List Dimension) (d : Nat) (handle : Dimension)
    (io : MINCImageIOFields) (h : WorldReady dims io) :
    WorldReady dims (worldEffect d handle io) := by
  rw [worldEffect_eq]
  obtain ⟨h1, h2, h3, h4, h5⟩ := h
  exact ⟨h1, h2, by simpa using h3, by simpa using h4, by simpa using h5⟩

theorem getElem?_set_stable {α : Type} (l : List α) (d i : Nat) (x y : α)
    (h : l[d]? = some x) (hi : i = d → y = x) : (l.set i y)[d]? = some x := by
  by_cases hid : i = d
  · subst hid
    have hlt : i < l.length := by
      rcases Nat.lt_or_ge i l.length with hlt | hge
      · exact hlt
      · rw [List.getElem?_eq_none hge] at h; cases h
    rw [List.getElem?_set_self hlt, hi rfl]
  · rw [List.getElem?_set_ne hid]; exact h

/-- An index already set stays set through any later iteration. -/
theorem WorldAt_worldEffect_stable (dims : List Dimension) (d i : Nat) (handle : Dimension)
    (io : MINCImageIOFields) (hr : WorldReady dims io) (hi : dims[i]? = some handle)
    (h : WorldAt dims d io) : WorldAt dims d (worldEffect i handle io) := by
  obtain ⟨hd, hdims, h1, h2, h3⟩ := h
  rw [worldEffect_eq]
  refine ⟨hd, hdims, ?_, ?_, ?_⟩
  · apply getElem?_set_stable _ _ _ _ _ h1
    intro hid; subst hid; rw [hi] at hdims; cases hdims; rfl
  · apply getElem?_set_stable _ _ _ _ _ h2
    intro hid; subst hid; rw [hi] at hdims; cases hdims; rfl
  · apply getElem?_set_stable _ _ _ _ _ h3
    intro hid; subst hid; rw [hi] at hdims; cases hdims; rw [hr.2.1]

/-- The iteration for index `d` sets index `d`. -/
theorem WorldAt_worldEffect_self (dims : List Dimension) (d : Nat) (handle : Dimension)
    (io : MINCImageIOFields) (hr : WorldReady dims io) (hd : dims[d]? = some handle) :
    WorldAt dims d (worldEffect d handle io) := by
  have hlt : d < dims.length := by
    rcases Nat.lt_or_ge d dims.length with hlt | hge
    · exact hlt
    · rw [List.getElem?_eq_none hge] at hd; cases hd
  obtain ⟨_, h2, h3, h4, h5⟩ := hr
  rw [worldEffect_eq]
  refine ⟨handle, hd, ?_, ?_, ?_⟩
  · exact List.getElem?_set_self (by omega)
  · exact List.getElem?_set_self (by omega)
  · simp only []
    rw [List.getElem?_set_self (by omega), h2]

/-- A normal pass through the body has the effect `worldEffect`, and the oracle
of the library is unchanged. -/
theorem readImageToWorldBody_ok (d : Nat) (s s' : Sys)
    (h : readImageToWorldBody d s = .ok () s') :
    ∃ handle, volumeDimensionAt s.io d = some handle ∧ s'.io = worldEffect d handle s.io ∧
      s'.lib.fails = s.lib.fails := by
  unfold readImageToWorldBody at h
  cases hv : volumeDimensionAt s.io d with
  | none => rw [hv] at h; cases h
  | some handle =>
    rw [hv] at h
    refine ⟨handle, rfl, ?_⟩
    simp only [miget_dimension_separation, miget_dimension_start, miget_dimension_cosines,
      LibState.record] at h
    split at h
    · cases h
    · cases h
    · rename_i sp lib hsep
      split at hsep
      · cases hsep
      · split at h
        · cases h
        · cases h
        · rename_i org lib2 hst
          split at hst
          · cases hst
          · split at h
            · cases h
            · cases h
            · rename_i cs lib3 hcs
              split at hcs
              · cases hcs
              · cases hsep; cases hst; cases hcs; cases h
                exact ⟨rfl, rfl⟩

/-- When no query fails, the body returns normally. -/
theorem readImageToWorldBody_total (d : Nat) (s : Sys) (handle : Dimension)
    (hv : volumeDimensionAt s.io d = some handle) (hf : ∀ c, s.lib.fails c = false) :
    ∃ s', readImageToWorldBody d s = .ok () s' := by
  unfold readImageToWorldBody
  rw [hv]
  simp [miget_dimension_separation, miget_dimension_start, miget_dimension_cosines,
    LibState.record, hf]

theorem forLoop_cons_ok (body : Nat → Sys → Res Unit) (d : Nat) (ds : List Nat) (s s' : Sys)
    (h : forLoop body (d :: ds) s = .ok () s') :
    ∃ s1, body d s = .ok () s1 ∧ forLoop body ds s1 = .ok () s' := by
  unfold forLoop at h
  cases hb : body d s with
  | ok a s1 => rw [hb] at h; exact ⟨s1, rfl, h⟩
  | exception w s1 => rw [hb] at h; cases h
  | undefined => rw [hb] at h; cases h

/-- Partial correctness of the loop of `ReadImageToWorldInformation`. -/
theorem forLoop_world_ok (dims : List Dimension) :
    ∀ (ds : List Nat) (s s' : Sys), WorldReady dims s.io →
      forLoop readImageToWorldBody ds s = .ok () s' →
      WorldReady dims s'.io ∧ (∀ d, WorldAt dims d s.io → WorldAt dims d s'.io) ∧
        (∀ d ∈ ds, WorldAt dims d s'.io) := by
  intro ds
  induction ds with
  | nil =>
    intro s s' hr h
    unfold forLoop at h
    cases h
    exact ⟨hr, fun _ h => h, fun _ h => by cases h⟩
  | cons d0 ds ih =>
    intro s s' hr h
    obtain ⟨s1, hb, hrest⟩ := forLoop_cons_ok _ _ _ _ _ h
    obtain ⟨handle, hv, hio, _⟩ := readImageToWorldBody_ok d0 s s1 hb
    rw [volumeDimensionAt_of_array dims s.io hr.1] at hv
    have hr1 : WorldReady dims s1.io := by rw [hio]; exact WorldReady_worldEffect dims d0 handle _ hr
    obtain ⟨hr', hstable, hall⟩ := ih s1 s' hr1 hrest
    refine ⟨hr', ?_, ?_⟩
    · intro d hd
      apply hstable
      rw [hio]
      exact WorldAt_worldEffect_stable dims d d0 handle s.io hr hv hd
    · intro d hd
      rcases List.mem_cons.1 hd with hd | hd
      · subst hd
        apply hstable
        rw [hio]
        exact WorldAt_worldEffect_self dims d handle s.io hr hv
      · exact hall d hd

/-- Total correctness of the loop: it returns when no query fails. -/
theorem forLoop_world_total (dims : List Dimension) :
    ∀ (ds : List Nat) (s : Sys), WorldReady dims s.io → (∀ c, s.lib.fails c = false) →
      (∀ d ∈ ds, d < dims.length) → ∃ s', forLoop readImageToWorldBody ds s = .ok () s' := by
  intro ds
  induction ds with
  | nil => intro s _ _ _; exact ⟨s, rfl⟩
  | cons d0 ds ih =>
    intro s hr hf hlt
    have hd0 : d0 < dims.length := hlt d0 (List.mem_cons_self _ _)
    have hv : volumeDimensionAt s.io d0 = some dims[d0] := by
      rw [volumeDimensionAt_of_array dims s.io hr.1, List.getElem?_eq_getElem hd0]
    obtain ⟨s1, hb⟩ := readImageToWorldBody_total d0 s _ hv hf
    obtain ⟨handle, hv', hio, hfails⟩ := readImageToWorldBody_ok d0 s s1 hb
    have hr1 : WorldReady dims s1.io := by rw [hio]; exact WorldReady_worldEffect dims d0 handle _ hr
    obtain ⟨s', hs'⟩ := ih s1 hr1 (by intro c; rw [hfails]; exact hf c)
      (fun d hd => hlt d (List.mem_cons_of_mem _ hd))
    refine ⟨s', ?_⟩
    unfold forLoop
    rw [hb]
    exact hs'

/-- After a normal return of `ReadImageToWorldInformation`, every index holds
the spacing, origin and direction of its dimension. -/
theorem ReadImageToWorldInformation_ok (dims : List Dimension) (s s' : Sys)
    (hr : WorldReady dims s.io) (h : ReadImageToWorldInformation s = .ok () s')
    (d : Nat) (hd : d < dims.length) : WorldAt dims d s'.io := by
  unfold ReadImageToWorldInformation at h
  rw [hr.2.1] at h
  exact (forLoop_world_ok dims _ s s' hr h).2.2 d (List.mem_range.2 hd)

theorem ReadImageToWorldInformation_total (dims : List Dimension) (s : Sys)
    (hr : WorldReady dims s.io) (hf : ∀ c, s.lib.fails c = false) :
    ∃ s', ReadImageToWorldInformation s = .ok () s' := by
  unfold ReadImageToWorldInformation
  rw [hr.2.1]
  exact forLoop_world_total dims _ s hr hf (fun d hd => List.mem_range.1 hd)

theorem spacingForDimension_eq_abs (handle : Dimension) :
    spacingForDimension handle = |handle.separation| := by
  unfold spacingForDimension
  by_cases h : handle.separation < 0
  · simp [h, abs_of_neg]
  · simp [h, abs_of_nonneg (not_lt.1 h)]

theorem cosinesForDirection_eq (handle : Dimension) :
    cosinesForDirection handle =
      if 0 ≤ handle.separation then
        (-handle.cosines.1, -handle.cosines.2.1, handle.cosines.2.2)
      else (handle.cosines.1, handle.cosines.2.1, -handle.cosines.2.2) := by
  unfold cosinesForDirection
  by_cases h : handle.separation < 0
  · simp [h, not_le.2 h]
  · simp [h, not_lt.1 h]

theorem directionVector_length (n dim : Nat) (c : ℚ × ℚ × ℚ) :
    (directionVector n dim c).length = n := by
  simp [directionVector]

theorem directionVector_getElem? (n dim i : Nat) (c : ℚ × ℚ × ℚ) (hi : i < n) :
    (directionVector n dim c)[i]? =
      some (if i < 3 then cosineAt c i else (if dim = i then 1 else 0)) := by
  simp [directionVector, List.getElem?_map, List.getElem?_range hi]

/-! ## Claims on `ReadImageToWorldInformation` -/

/-- C5: for every dimension read by `ReadImageToWorldInformation`, with signed
step `s` and start `o`, the reported spacing is `|s|`, hence not negative, and
the reported origin is `o`, whether or not `s` is negative.  The call returns
normally when no library query fails. -/
theorem ReadImageToWorldInformation_spacing_origin (dims : List Dimension) (s : Sys)
    (hr : WorldReady dims s.io) :
    ((∀ c, s.lib.fails c = false) → ∃ s', ReadImageToWorldInformation s = .ok () s') ∧
    ∀ s', ReadImageToWorldInformation s = .ok () s' →
      ∀ (d : Nat) (hd : d < dims.length),
        ∃ spacing, s'.io.m_Spacing[d]? = some spacing ∧ spacing = |dims[d].separation| ∧
          0 ≤ spacing ∧ s'.io.m_Origin[d]? = some dims[d].start := by
  refine ⟨ReadImageToWorldInformation_total dims s hr, ?_⟩
  intro s' h d hd
  obtain ⟨handle, hh, hsp, hor, _⟩ := ReadImageToWorldInformation_ok dims s s' hr h d hd
  rw [List.getElem?_eq_getElem hd] at hh
  cases hh
  refine ⟨_, hsp, spacingForDimension_eq_abs _, ?_, hor⟩
  rw [spacingForDimension_eq_abs]
  exact abs_nonneg _

/-- Witness of C5 on `file4D`, whose first dimension has step `-2` and start
`-1`: the reported spacing is `2` and the reported origin is `-1`. -/
theorem ReadImageToWorldInformation_spacing_origin_witness :
    ∃ s', ReadImageToWorldInformation (shapedOn file4D) = .ok () s' ∧
      s'.io.m_Spacing[0]? = some (2 : ℚ) ∧ s'.io.m_Origin[0]? = some (-1 : ℚ) := by
  have h := ReadImageToWorldInformation_spacing_origin file4D.dimensions (shapedOn file4D)
    ⟨rfl, rfl, rfl, rfl, rfl⟩
  obtain ⟨s', hs'⟩ := h.1 (fun _ => rfl)
  obtain ⟨spacing, h1, h2, _, h4⟩ := h.2 s' hs' 0 (by decide)
  refine ⟨s', hs', ?_, h4⟩
  rw [h1, h2]
  decide

/-- C6: for an axis with index below 3, step `s` and cosines `(c0, c1, c2)`, the
reported direction vector has one slot per dimension and its slots below
`min 3 n` hold `(-c0, -c1, c2)` when `s >= 0` and `(c0, c1, -c2)` when `s < 0`.
Hence the direction reported for step `-s` is the component-wise negation of the
one reported for step `s > 0` with the same cosines, and the spacing is equal. -/
theorem ReadImageToWorldInformation_direction (dims dims' : List Dimension) (s t : Sys)
    (hs : WorldReady dims s.io) (ht : WorldReady dims' t.io)
    (d : Nat) (hd : d < dims.length) (hd' : d < dims'.length) (hd3 : d < 3) :
    ((∀ c, s.lib.fails c = false) → ∃ s', ReadImageToWorldInformation s = .ok () s') ∧
    ∀ s', ReadImageToWorldInformation s = .ok () s' →
      (∃ direction, s'.io.m_Direction[d]? = some direction ∧
        direction.length = dims.length ∧
        ∀ i, i < min 3 dims.length →
          direction[i]? = some (cosineAt
            (if 0 ≤ dims[d].separation then
              (-dims[d].cosines.1, -dims[d].cosines.2.1, dims[d].cosines.2.2)
            else (dims[d].cosines.1, dims[d].cosines.2.1, -dims[d].cosines.2.2)) i)) ∧
      ∀ t', ReadImageToWorldInformation t = .ok () t' →
        dims'.length = dims.length → 0 < dims[d].separation →
        dims'[d].separation = -dims[d].separation → dims'[d].cosines = dims[d].cosines →
        t'.io.m_Direction[d]? = (s'.io.m_Direction[d]?).map (List.map fun x => -x) ∧
          t'.io.m_Spacing[d]? = s'.io.m_Spacing[d]? := by
  refine ⟨ReadImageToWorldInformation_total dims s hs, ?_⟩
  intro s' h
  obtain ⟨handle, hh, hsp, _, hdir⟩ := ReadImageToWorldInformation_ok dims s s' hs h d hd
  rw [List.getElem?_eq_getElem hd] at hh
  cases hh
  refine ⟨⟨_, hdir, directionVector_length _ _ _, ?_⟩, ?_⟩
  · intro i hi
    have hi3 : i < 3 := lt_of_lt_of_le hi (min_le_left _ _)
    have hin : i < dims.length := lt_of_lt_of_le hi (min_le_right _ _)
    rw [directionVector_getElem? _ _ _ _ hin, if_pos hi3, cosinesForDirection_eq]
  · intro t' h' hlen hpos hsep hcos
    obtain ⟨handle', hh', hsp', _, hdir'⟩ :=
      ReadImageToWorldInformation_ok dims' t t' ht h' d hd'
    rw [List.getElem?_eq_getElem hd'] at hh'
    cases hh'
    have hc : cosinesForDirection dims[d] =
        (-dims[d].cosines.1, -dims[d].cosines.2.1, dims[d].cosines.2.2) := by
      rw [cosinesForDirection_eq, if_pos (le_of_lt hpos)]
    have hc' : cosinesForDirection dims'[d] =
        (dims[d].cosines.1, dims[d].cosines.2.1, -dims[d].cosines.2.2) := by
      rw [cosinesForDirection_eq, hsep, hcos, if_neg (by linarith)]
    rw [hdir, hdir', hsp, hsp', spacingForDimension_eq_abs, spacingForDimension_eq_abs, hsep,
      abs_neg, hlen, hc, hc']
    refine ⟨?_, rfl⟩
    simp only [Option.map_some', Option.some.injEq]
    apply List.ext_getElem?
    intro i
    by_cases hin : i < dims.length
    · rw [List.getElem?_map, directionVector_getElem? _ _ _ _ hin,
        directionVector_getElem? _ _ _ _ hin]
      by_cases hi3 : i < 3
      · simp only [hi3, if_true, Option.map_some', Option.some.injEq]
        interval_cases i <;> simp [cosineAt]
      · have hne : ¬ d = i := by omega
        simp [hi3, hne]
    · rw [List.getElem?_eq_none (by rw [directionVector_length]; omega),
        List.getElem?_eq_none (by rw [List.length_map, directionVector_length]; omega)]

/-- Witness of C6 on `file4DPositive` (step `2`) and `file4D` (step `-2`), at
the first axis. -/
theorem ReadImageToWorldInformation_direction_witness :
    ∃ s' t', ReadImageToWorldInformation (shapedOn file4DPositive) = .ok () s' ∧
      ReadImageToWorldInformation (shapedOn file4D) = .ok () t' ∧
      t'.io.m_Direction[0]? = (s'.io.m_Direction[0]?).map (List.map fun x : ℚ => -x) ∧
      t'.io.m_Spacing[0]? = s'.io.m_Spacing[0]? := by
  have h := ReadImageToWorldInformation_direction file4DPositive.dimensions file4D.dimensions
    (shapedOn file4DPositive) (shapedOn file4D) ⟨rfl, rfl, rfl, rfl, rfl⟩
    ⟨rfl, rfl, rfl, rfl, rfl⟩ 0 (by decide) (by decide) (by decide)
  have h' := ReadImageToWorldInformation_direction file4D.dimensions file4D.dimensions
    (shapedOn file4D) (shapedOn file4D) ⟨rfl, rfl, rfl, rfl, rfl⟩
    ⟨rfl, rfl, rfl, rfl, rfl⟩ 0 (by decide) (by decide) (by decide)
  obtain ⟨s', hs'⟩ := h.1 (fun _ => rfl)
  obtain ⟨t', ht'⟩ := h'.1 (fun _ => rfl)
  exact ⟨s', t', hs', ht', (h.2 s' hs').2 t' ht' rfl (by decide) (by decide) rfl⟩

/-- C7, as stated, fails: in `file4D` the library reports the cosines
`(1, 0, 0)` for the fourth dimension, and the direction reported for axis 3 is
`[-1, 0, 0, 1]`, not the basis vector `[0, 0, 0, 1]`. -/
theorem direction_beyond_third_counterexample :
    ¬ (∀ (dims : List Dimension) (s s' : Sys), WorldReady dims s.io →
        ReadImageToWorldInformation s = .ok () s' →
        ∀ d, 3 ≤ d → d < dims.length →
          s'.io.m_Direction[d]? =
            some ((List.range dims.length).map fun i => if i = d then (1 : ℚ) else 0)) := by
  intro hall
  have hr : WorldReady file4D.dimensions (shapedOn file4D).io := ⟨rfl, rfl, rfl, rfl, rfl⟩
  obtain ⟨s', hs'⟩ := ReadImageToWorldInformation_total _ _ hr (fun _ => rfl)
  have h1 := hall _ _ s' hr hs' 3 (by decide) (by decide)
  obtain ⟨handle, hh, _, _, hdir⟩ := ReadImageToWorldInformation_ok _ _ s' hr hs' 3 (by decide)
  cases hh
  rw [hdir, cosinesForDirection_eq] at h1
  have h2 := congrArg (fun o : Option (List ℚ) => o.bind fun l => l[0]?) h1
  norm_num [directionVector, file4D, cosineAt, List.range_succ] at h2

/-- C7, amended: for an axis with index `d >= 3`, the reported direction vector
has one slot per dimension; its slots 0, 1 and 2 hold the converted cosines of
that dimension, exactly as for an axis below 3; slot `d` is 1 and every other
slot from 3 on is 0. -/
theorem direction_beyond_third_axis (dims : List Dimension) (s : Sys)
    (hr : WorldReady dims s.io) (d : Nat) (hd : d < dims.length) (hd3 : 3 ≤ d) :
    ((∀ c, s.lib.fails c = false) → ∃ s', ReadImageToWorldInformation s = .ok () s') ∧
    ∀ s', ReadImageToWorldInformation s = .ok () s' →
      ∃ direction, s'.io.m_Direction[d]? = some direction ∧
        direction.length = dims.length ∧
        (∀ i, i < 3 →
          direction[i]? = some (cosineAt
            (if 0 ≤ dims[d].separation then
              (-dims[d].cosines.1, -dims[d].cosines.2.1, dims[d].cosines.2.2)
            else (dims[d].cosines.1, dims[d].cosines.2.1, -dims[d].cosines.2.2)) i)) ∧
        direction[d]? = some 1 ∧
        ∀ i, 3 ≤ i → i < dims.length → i ≠ d → direction[i]? = some 0 := by
  refine ⟨ReadImageToWorldInformation_total dims s hr, ?_⟩
  intro s' h
  obtain ⟨handle, hh, _, _, hdir⟩ := ReadImageToWorldInformation_ok dims s s' hr h d hd
  rw [List.getElem?_eq_getElem hd] at hh
  cases hh
  refine ⟨_, hdir, directionVector_length _ _ _, ?_, ?_, ?_⟩
  · intro i hi
    rw [directionVector_getElem? _ _ _ _ (by omega), if_pos hi, cosinesForDirection_eq]
  · rw [directionVector_getElem? _ _ _ _ hd, if_neg (by omega), if_pos rfl]
  · intro i hi hin hne
    rw [directionVector_getElem? _ _ _ _ hin, if_neg (by omega), if_neg (fun h => hne h.symm)]

/-- Witness of the amended C7 on `file4D`, at axis 3: the direction is
`[-1, 0, 0, 1]`. -/
theorem direction_beyond_third_axis_witness :
    ∃ s' direction, ReadImageToWorldInformation (shapedOn file4D) = .ok () s' ∧
      s'.io.m_Direction[3]? = some direction ∧
      direction[0]? = some (-1 : ℚ) ∧ direction[3]? = some (1 : ℚ) := by
  have h := direction_beyond_third_axis file4D.dimensions
    (shapedOn file4D) ⟨rfl, rfl, rfl, rfl, rfl⟩ 3 (by decide) (by decide)
  obtain ⟨s', hs'⟩ := h.1 (fun _ => rfl)
  obtain ⟨direction, h1, _, h3, h4, _⟩ := h.2 s' hs'
  refine ⟨s', direction, hs', h1, ?_, h4⟩
  rw [h3 0 (by decide)]
  norm_num [file4D, cosineAt]

/-! ## Lemmas on `SetNumberOfDimensions` and on the shape loop -/

theorem resize_length {α : Type} (v : List α) (n : Nat) (fill : α) :
    (resize v n fill).length = n := by
  simp [resize]
  omega

/-- The reset loop of `SetNumberOfDimensions` keeps every field it does not
store to, and the length of every vector. -/
theorem reset_loop_frame (f : Nat → List ℚ) :
    ∀ (l : List Nat) (io : MINCImageIOFields),
      let io' := l.foldl
        (fun io i => SetSpacing i 1 (SetOrigin i 0 (SetDirection i (f i) io))) io
      io'.m_Volume = io.m_Volume ∧ io'.m_VolumeValid = io.m_VolumeValid ∧
      io'.m_NumberOfDimensions = io.m_NumberOfDimensions ∧
      io'.m_Dimensions = io.m_Dimensions ∧
      io'.m_Spacing.length = io.m_Spacing.length ∧
      io'.m_Origin.length = io.m_Origin.length ∧
      io'.m_Direction.length = io.m_Direction.length := by
  intro l
  induction l with
  | nil => intro io; exact ⟨rfl, rfl, rfl, rfl, rfl, rfl, rfl⟩
  | cons i l ih =>
    intro io
    have h := ih (SetSpacing i 1 (SetOrigin i 0 (SetDirection i (f i) io)))
    simp only [SetSpacing_eq, SetOrigin_eq, SetDirection_eq, List.length_set] at h
    simpa only [List.foldl_cons, SetSpacing_eq, SetOrigin_eq, SetDirection_eq] using h

theorem SetNumberOfDimensions_frame (k : Nat) (io : MINCImageIOFields) :
    (SetNumberOfDimensions k io).m_Volume = io.m_Volume ∧
    (SetNumberOfDimensions k io).m_VolumeValid = io.m_VolumeValid ∧
    (SetNumberOfDimensions k io).m_NumberOfDimensions = k := by
  unfold SetNumberOfDimensions
  split
  · rename_i hne
    simp only []
    obtain ⟨h1, h2, h3, _⟩ := reset_loop_frame
      (fun i => (List.range k).map fun j => if i = j then (1 : ℚ) else 0) (List.range k)
      { io with
        m_Origin := resize io.m_Origin k 0
        m_Spacing := resize io.m_Spacing k 0
        m_Direction := resize io.m_Direction k []
        m_Strides := resize io.m_Strides (k + 2) 0
        m_NumberOfDimensions := k
        m_Dimensions := resize io.m_Dimensions k 0 }
    exact ⟨h1, h2, h3⟩
  · rename_i heq
    exact ⟨rfl, rfl, (not_not.1 heq).symm⟩

theorem SetNumberOfDimensions_sized (k : Nat) (io : MINCImageIOFields) (h : VectorsSized io) :
    VectorsSized (SetNumberOfDimensions k io) := by
  unfold SetNumberOfDimensions
  split
  · simp only []
    obtain ⟨_, _, h3, h4, h5, h6, h7⟩ := reset_loop_frame
      (fun i => (List.range k).map fun j => if i = j then (1 : ℚ) else 0) (List.range k)
      { io with
        m_Origin := resize io.m_Origin k 0
        m_Spacing := resize io.m_Spacing k 0
        m_Direction := resize io.m_Direction k []
        m_Strides := resize io.m_Strides (k + 2) 0
        m_NumberOfDimensions := k
        m_Dimensions := resize io.m_Dimensions k 0 }
    unfold VectorsSized
    rw [h3, h4, h5, h6, h7]
    exact ⟨resize_length _ _ _, resize_length _ _ _, resize_length _ _ _, resize_length _ _ _⟩
  · exact h

theorem SetNumberOfDimensions_dimensions_length (k : Nat) (io : MINCImageIOFields)
    (h : io.m_Dimensions.length = io.m_NumberOfDimensions) :
    (SetNumberOfDimensions k io).m_Dimensions.length = k := by
  unfold SetNumberOfDimensions
  split
  · simp only []
    obtain ⟨_, _, _, h4, _⟩ := reset_loop_frame
      (fun i => (List.range k).map fun j => if i = j then (1 : ℚ) else 0) (List.range k)
      { io with
        m_Origin := resize io.m_Origin k 0
        m_Spacing := resize io.m_Spacing k 0
        m_Direction := resize io.m_Direction k []
        m_Strides := resize io.m_Strides (k + 2) 0
        m_NumberOfDimensions := k
        m_Dimensions := resize io.m_Dimensions k 0 }
    rw [h4]
    exact resize_length _ _ _
  · rename_i heq
    rw [h]; exact (not_not.1 heq).symm

/-- A normal pass through the body of the shape loop stores the size of the
dimension at its index; the oracle of the library is unchanged. -/
theorem readShapeBody_ok (d : Nat) (s s' : Sys) (h : readShapeBody d s = .ok () s') :
    ∃ handle, volumeDimensionAt s.io d = some handle ∧
      s'.io = { s.io with m_Dimensions := s.io.m_Dimensions.set d handle.size } ∧
      s'.lib.fails = s.lib.fails := by
  unfold readShapeBody at h
  cases hv : volumeDimensionAt s.io d with
  | none => rw [hv] at h; cases h
  | some handle =>
    rw [hv] at h
    refine ⟨handle, rfl, ?_⟩
    simp only [miget_dimension_size, LibState.record, SetDimensions_eq] at h
    split at h
    · cases h
    · cases h
    · rename_i sz lib hsz
      split at hsz
      · cases hsz
      · cases hsz; cases h
        exact ⟨rfl, rfl⟩

theorem readShapeBody_total (d : Nat) (s : Sys) (handle : Dimension)
    (hv : volumeDimensionAt s.io d = some handle) (hf : ∀ c, s.lib.fails c = false) :
    ∃ s', readShapeBody d s = .ok () s' := by
  unfold readShapeBody
  rw [hv]
  simp [miget_dimension_size, LibState.record, hf]

/-- Partial correctness of the loop of `ReadShapeInformation`. -/
theorem forLoop_shape_ok (dims : List Dimension) :
    ∀ (ds : List Nat) (s s' : Sys), ShapeReady dims s.io →
      forLoop readShapeBody ds s = .ok () s' →
      ShapeReady dims s'.io ∧ s'.io.m_NumberOfDimensions = s.io.m_NumberOfDimensions ∧
        (∀ d, ShapeAt dims d s.io → ShapeAt dims d s'.io) ∧
        (∀ d ∈ ds, ShapeAt dims d s'.io) := by
  intro ds
  induction ds with
  | nil =>
    intro s s' hr h
    unfold forLoop at h
    cases h
    exact ⟨hr, rfl, fun _ h => h, fun _ h => by cases h⟩
  | cons d0 ds ih =>
    intro s s' hr h
    obtain ⟨s1, hb, hrest⟩ := forLoop_cons_ok _ _ _ _ _ h
    obtain ⟨handle, hv, hio, _⟩ := readShapeBody_ok d0 s s1 hb
    rw [volumeDimensionAt_of_array dims s.io hr.1] at hv
    have hlt : d0 < dims.length := by
      rcases Nat.lt_or_ge d0 dims.length with hlt | hge
      · exact hlt
      · rw [List.getElem?_eq_none hge] at hv; cases hv
    have hr1 : ShapeReady dims s1.io := by
      rw [hio]; exact ⟨hr.1, by simpa using hr.2⟩
    obtain ⟨hr', hn, hstable, hall⟩ := ih s1 s' hr1 hrest
    refine ⟨hr', by rw [hn, hio], ?_, ?_⟩
    · intro d hd
      apply hstable
      rw [hio]
      obtain ⟨hd1, hd2, hd3⟩ := hd
      refine ⟨hd1, hd2, ?_⟩
      apply getElem?_set_stable _ _ _ _ _ hd3
      intro hid; subst hid; rw [hv] at hd2; cases hd2; rfl
    · intro d hd
      rcases List.mem_cons.1 hd with hd | hd
      · subst hd
        apply hstable
        rw [hio]
        exact ⟨handle, hv, List.getElem?_set_self (by rw [hr.2]; exact hlt)⟩
      · exact hall d hd

/-- Total correctness of the loop of `ReadShapeInformation`. -/
theorem forLoop_shape_total (dims : List Dimension) :
    ∀ (ds : List Nat) (s : Sys), ShapeReady dims s.io → (∀ c, s.lib.fails c = false) →
      (∀ d ∈ ds, d < dims.length) → ∃ s', forLoop readShapeBody ds s = .ok () s' := by
  intro ds
  induction ds with
  | nil => intro s _ _ _; exact ⟨s, rfl⟩
  | cons d0 ds ih =>
    intro s hr hf hlt
    have hd0 : d0 < dims.length := hlt d0 (List.mem_cons_self _ _)
    have hv : volumeDimensionAt s.io d0 = some dims[d0] := by
      rw [volumeDimensionAt_of_array dims s.io hr.1, List.getElem?_eq_getElem hd0]
    obtain ⟨s1, hb⟩ := readShapeBody_total d0 s _ hv hf
    obtain ⟨handle, _, hio, hfails⟩ := readShapeBody_ok d0 s s1 hb
    have hr1 : ShapeReady dims s1.io := by
      rw [hio]; exact ⟨hr.1, by simpa using hr.2⟩
    obtain ⟨s', hs'⟩ := ih s1 hr1 (by intro c; rw [hfails]; exact hf c)
      (fun d hd => hlt d (List.mem_cons_of_mem _ hd))
    refine ⟨s', ?_⟩
    unfold forLoop
    rw [hb]
    exact hs'

/-- The state in which `ReadShapeInformation` enters its loop, when the two
volume queries succeed. -/
theorem ReadShapeInformation_unfold (s : Sys) (h : Nat) (v : Volume)
    (hvol : s.io.m_Volume = some h) (hopen : s.lib.handles.lookup h = some v)
    (hcount : s.lib.fails (.miget_volume_dimension_count h) = false)
    (hdims : s.lib.fails (.miget_volume_dimensions h v.regularDimensions.length) = false) :
    ReadShapeInformation s =
      forLoop readShapeBody (List.range v.regularDimensions.length)
        { lib := (s.lib.record (.miget_volume_dimension_count h)).record
            (.miget_volume_dimensions h v.regularDimensions.length)
          io := { SetNumberOfDimensions v.regularDimensions.length s.io with
            m_VolumeDimension := some (v.regularDimensions.map some) } } := by
  have hvol' := (SetNumberOfDimensions_frame v.regularDimensions.length s.io).1
  have hdrop : List.drop v.regularDimensions.length
      (List.replicate v.regularDimensions.length (none : Option Dimension)) = [] :=
    List.drop_eq_nil_of_le (by simp)
  unfold ReadShapeInformation
  simp only [miget_volume_dimension_count, miget_volume_dimensions, LibState.volumeOf,
    LibState.record, hvol, hopen, hcount, hdims, hvol', Bool.false_eq_true, if_false,
    List.take_length, List.length_map, List.length_replicate, hdrop, List.append_nil]

/-- A normal return of `ReadShapeInformation` means that neither volume query
reported an error. -/
theorem ReadShapeInformation_ok_queries (s s' : Sys) (h : Nat) (v : Volume)
    (hvol : s.io.m_Volume = some h) (hopen : s.lib.handles.lookup h = some v)
    (hok : ReadShapeInformation s = .ok () s') :
    s.lib.fails (.miget_volume_dimension_count h) = false ∧
      s.lib.fails (.miget_volume_dimensions h v.regularDimensions.length) = false := by
  have hvol' := (SetNumberOfDimensions_frame v.regularDimensions.length s.io).1
  cases hc : s.lib.fails (.miget_volume_dimension_count h) with
  | true =>
    unfold ReadShapeInformation at hok
    simp [miget_volume_dimension_count, LibState.volumeOf, LibState.record, hvol, hopen,
      hc] at hok
  | false =>
    cases hd : s.lib.fails (.miget_volume_dimensions h v.regularDimensions.length) with
    | true =>
      unfold ReadShapeInformation at hok
      simp [miget_volume_dimension_count, miget_volume_dimensions, LibState.volumeOf,
        LibState.record, hvol, hopen, hc, hd, hvol'] at hok
    | false => exact ⟨rfl, rfl⟩

/-! ## Claims on `ReadShapeInformation` -/

/-- C8: after a normal return of `ReadShapeInformation` on a file whose
regularly sampled dimensions, in file declaration order, have the sample counts
`n_0, ..., n_(k-1)`, the number of dimensions is `k` and `GetDimensions(i)` is
`n_i` for every `i < k`: the sizes are in file order, whatever that order is.
The call returns normally when no library query fails. -/
theorem ReadShapeInformation_file_order (s : Sys) (h : Nat) (v : Volume)
    (hvol : s.io.m_Volume = some h) (hopen : s.lib.handles.lookup h = some v)
    (hsized : s.io.m_Dimensions.length = s.io.m_NumberOfDimensions) :
    ((∀ c, s.lib.fails c = false) → ∃ s', ReadShapeInformation s = .ok () s') ∧
    ∀ s', ReadShapeInformation s = .ok () s' →
      s'.io.m_NumberOfDimensions = v.regularDimensions.length ∧
      s'.io.m_Dimensions = v.regularDimensions.map (fun d => d.size) ∧
      ∀ (i : Nat) (hi : i < v.regularDimensions.length),
        s'.io.m_Dimensions[i]? = some (v.regularDimensions[i]).size := by
  have hready : ∀ lib, ShapeReady v.regularDimensions
      ({ lib := lib
         io := { SetNumberOfDimensions v.regularDimensions.length s.io with
           m_VolumeDimension := some (v.regularDimensions.map some) } } : Sys).io :=
    fun _ => ⟨rfl, SetNumberOfDimensions_dimensions_length _ _ hsized⟩
  constructor
  · intro hf
    rw [ReadShapeInformation_unfold s h v hvol hopen (hf _) (hf _)]
    exact forLoop_shape_total v.regularDimensions _ _ (hready _) hf
      (fun d hd => List.mem_range.1 hd)
  · intro s' hs'
    obtain ⟨hc, hd⟩ := ReadShapeInformation_ok_queries s s' h v hvol hopen hs'
    rw [ReadShapeInformation_unfold s h v hvol hopen hc hd] at hs'
    obtain ⟨hr', hn, _, hall⟩ := forLoop_shape_ok v.regularDimensions _ _ s' (hready _) hs'
    have hat : ∀ (i : Nat) (hi : i < v.regularDimensions.length),
        s'.io.m_Dimensions[i]? = some (v.regularDimensions[i]).size := by
      intro i hi
      obtain ⟨handle, hh, hsz⟩ := hall i (List.mem_range.2 hi)
      rw [List.getElem?_eq_getElem hi] at hh
      cases hh
      exact hsz
    refine ⟨?_, ?_, hat⟩
    · rw [hn]
      exact (SetNumberOfDimensions_frame _ _).2.2
    · apply List.ext_getElem?
      intro i
      by_cases hi : i < v.regularDimensions.length
      · rw [hat i hi, List.getElem?_map, List.getElem?_eq_getElem hi]
        rfl
      · rw [List.getElem?_eq_none (by rw [hr'.2]; omega),
          List.getElem?_eq_none (by rw [List.length_map]; omega)]

/-- Witness of C8 on `file4D`, just opened: four dimensions of sizes 2, 3, 2
and 5, in file order. -/
theorem ReadShapeInformation_file_order_witness :
    ∃ s', ReadShapeInformation (openedOn file4D) = .ok () s' ∧
      s'.io.m_NumberOfDimensions = 4 ∧ s'.io.m_Dimensions = [2, 3, 2, 5] := by
  have h := ReadShapeInformation_file_order (openedOn file4D) 1 file4D rfl rfl rfl
  obtain ⟨s', hs'⟩ := h.1 (fun _ => rfl)
  exact ⟨s', hs', (h.2 s' hs').1, (h.2 s' hs').2.1⟩

/-- The loop of `ReadShapeInformation` stores to `m_Dimensions` only. -/
theorem forLoop_shape_frame :
    ∀ (ds : List Nat) (s s' : Sys), forLoop readShapeBody ds s = .ok () s' →
      s'.io.m_Spacing = s.io.m_Spacing ∧ s'.io.m_Origin = s.io.m_Origin ∧
        s'.io.m_Direction = s.io.m_Direction := by
  intro ds
  induction ds with
  | nil =>
    intro s s' h
    unfold forLoop at h
    cases h
    exact ⟨rfl, rfl, rfl⟩
  | cons d0 ds ih =>
    intro s s' h
    obtain ⟨s1, hb, hrest⟩ := forLoop_cons_ok _ _ _ _ _ h
    obtain ⟨handle, _, hio, _⟩ := readShapeBody_ok d0 s s1 hb
    obtain ⟨h1, h2, h3⟩ := ih s1 s' hrest
    rw [h1, h2, h3, hio]
    exact ⟨rfl, rfl, rfl⟩

/-- The state `ReadShapeInformation` leaves is the one the claims on
`ReadImageToWorldInformation` start from. -/
theorem ReadShapeInformation_WorldReady (s s' : Sys) (h : Nat) (v : Volume)
    (hvol : s.io.m_Volume = some h) (hopen : s.lib.handles.lookup h = some v)
    (hsized : VectorsSized s.io) (hok : ReadShapeInformation s = .ok () s') :
    WorldReady v.regularDimensions s'.io := by
  obtain ⟨hc, hd⟩ := ReadShapeInformation_ok_queries s s' h v hvol hopen hok
  rw [ReadShapeInformation_unfold s h v hvol hopen hc hd] at hok
  have hk := (SetNumberOfDimensions_frame v.regularDimensions.length s.io).2.2
  obtain ⟨_, h2, h3, h4⟩ := SetNumberOfDimensions_sized v.regularDimensions.length s.io hsized
  obtain ⟨hr', hn, _, _⟩ := forLoop_shape_ok v.regularDimensions _ _ s'
    ⟨rfl, SetNumberOfDimensions_dimensions_length _ _ hsized.1⟩ hok
  obtain ⟨f1, f2, f3⟩ := forLoop_shape_frame _ _ s' hok
  refine ⟨hr'.1, by rw [hn]; exact hk, ?_, ?_, ?_⟩
  · rw [f1]; exact h2.trans hk
  · rw [f2]; exact h3.trans hk
  · rw [f3]; exact h4.trans hk

/-! ## Lemmas on `ConvertRegionToMINC` and on the row-major copy -/

theorem allWritten_eq_some (l : List (Option Nat)) (r : List Nat) :
    allWritten l = some r ↔ l = r.map some := by
  induction l generalizing r with
  | nil =>
    cases r with
    | nil => simp [allWritten]
    | cons x xs => simp [allWritten]
  | cons a l ih =>
    cases a with
    | none =>
      cases r <;> simp [allWritten]
    | some x =>
      cases r with
      | nil => simp [allWritten]
      | cons y ys =>
        simp only [allWritten, Option.map_eq_some', List.map_cons, List.cons.injEq,
          Option.some.injEq]
        constructor
        · rintro ⟨xs, hxs, hx, hys⟩
          subst hys
          exact ⟨hx, (ih xs).1 hxs⟩
        · rintro ⟨hx, hl⟩
          exact ⟨ys, (ih ys).2 hl, hx, rfl⟩

/-- A flattened list of `n` blocks of equal length `P`: its length, and the
element at position `i * P + r`. -/
theorem flatMap_range_block {β : Type} (f : Nat → List β) (P : Nat)
    (hP : ∀ j, (f j).length = P) :
    ∀ n, ((List.range n).flatMap f).length = n * P ∧
      ∀ i r, i < n → r < P → ((List.range n).flatMap f)[i * P + r]? = (f i)[r]? := by
  intro n
  induction n with
  | zero => exact ⟨by simp, fun i r hi _ => by omega⟩
  | succ n ih =>
    obtain ⟨hlen, hget⟩ := ih
    rw [List.range_succ, List.flatMap_append, List.flatMap_singleton]
    refine ⟨by rw [List.length_append, hlen, hP, Nat.succ_mul], ?_⟩
    intro i r hi hr
    rcases Nat.lt_or_ge i n with hin | hin
    · have hlt : i * P + r < n * P := by
        calc i * P + r < i * P + P := by omega
          _ = (i + 1) * P := by rw [Nat.succ_mul]
          _ ≤ n * P := Nat.mul_le_mul_right P hin
      rw [List.getElem?_append_left (by rw [hlen]; exact hlt)]
      exact hget i r hin hr
    · have hi' : i = n := by omega
      subst hi'
      rw [List.getElem?_append_right (by rw [hlen]; omega), hlen]
      congr 1
      omega

/-- The offset of a coordinate, outermost dimension first. -/
theorem foldl_offset (sizes coords : List Nat) (h : List.Forall₂ (fun i m => i < m) coords sizes) :
    ∀ acc, (List.zip sizes coords).foldl (fun acc p => acc * p.1 + p.2) acc =
      acc * sizes.prod + bufferOffset sizes coords := by
  induction h with
  | nil => intro acc; simp [bufferOffset]
  | @cons i m is ms hab _ ih =>
    intro acc
    simp only [List.zip_cons_cons, List.foldl_cons, bufferOffset, List.prod_cons]
    rw [ih, ih (0 * m + i)]
    ring

theorem bufferOffset_cons (m i : Nat) (sizes coords : List Nat)
    (h : List.Forall₂ (fun i m => i < m) coords sizes) :
    bufferOffset (m :: sizes) (i :: coords) = i * sizes.prod + bufferOffset sizes coords := by
  have := foldl_offset sizes coords h (0 * m + i)
  simp only [bufferOffset, List.zip_cons_cons, List.foldl_cons]
  rw [this]
  simp [bufferOffset]

theorem bufferOffset_lt (sizes coords : List Nat)
    (h : List.Forall₂ (fun i m => i < m) coords sizes) :
    bufferOffset sizes coords < sizes.prod := by
  induction h with
  | nil => simp [bufferOffset]
  | @cons i m is ms hab hrest ih =>
    rw [bufferOffset_cons m i ms is hrest, List.prod_cons]
    calc i * ms.prod + bufferOffset ms is < i * ms.prod + ms.prod := by omega
      _ = (i + 1) * ms.prod := by rw [Nat.succ_mul]
      _ ≤ m * ms.prod := Nat.mul_le_mul_right _ hab

theorem hyperslabIndices_length (starts counts : List Nat) (h : starts.length = counts.length) :
    (hyperslabIndices starts counts).length = counts.prod := by
  induction starts generalizing counts with
  | nil =>
    cases counts with
    | nil => simp [hyperslabIndices]
    | cons c cs => simp at h
  | cons a starts ih =>
    cases counts with
    | nil => simp at h
    | cons c cs =>
      have hl : starts.length = cs.length := by simpa using h
      unfold hyperslabIndices
      rw [(flatMap_range_block _ cs.prod (by intro j; rw [List.length_map, ih cs hl]) c).1,
        List.prod_cons]

/-- The row-major enumeration holds, at the offset of a coordinate, the voxel
index `start + coordinate`. -/
theorem hyperslabIndices_getElem? (starts counts coords : List Nat)
    (h : starts.length = counts.length)
    (hc : List.Forall₂ (fun i m => i < m) coords counts) :
    (hyperslabIndices starts counts)[bufferOffset counts coords]? =
      some (List.zipWith (fun a i => a + i) starts coords) := by
  induction hc generalizing starts with
  | nil =>
    cases starts with
    | nil => simp [hyperslabIndices, bufferOffset]
    | cons a starts => simp at h
  | @cons i m is ms hab hrest ih =>
    cases starts with
    | nil => simp at h
    | cons a starts =>
      have hl : starts.length = ms.length := by simpa using h
      unfold hyperslabIndices
      rw [bufferOffset_cons m i ms is hrest]
      rw [(flatMap_range_block _ ms.prod
        (by intro j; rw [List.length_map, hyperslabIndices_length _ _ hl]) m).2 i _ hab
        (bufferOffset_lt ms is hrest)]
      rw [List.getElem?_map, ih starts hl]
      rfl

theorem convertRegionLoop_cons (region : ImageIORegion) (d : Nat) (ds : List Nat)
    (a b a' b' : List (Option Nat))
    (h : convertRegionLoop region (d :: ds) (a, b) = some (a', b')) :
    ∃ index size, region.m_Index[d]? = some index ∧ region.m_Size[d]? = some size ∧
      d < a.length ∧ d < b.length ∧
      convertRegionLoop region ds (a.set d (some index), b.set d (some size)) = some (a', b') := by
  unfold convertRegionLoop at h
  cases hi : region.m_Index[d]? with
  | none => simp [hi] at h
  | some index =>
    cases hs : region.m_Size[d]? with
    | none => simp [hi, hs] at h
    | some size =>
      simp only [hi, hs, storeAt] at h
      by_cases ha : d < a.length
      · by_cases hb : d < b.length
        · simp only [ha, hb, if_true] at h
          exact ⟨index, size, rfl, rfl, ha, hb, h⟩
        · simp [ha, hb] at h
      · simp [ha] at h

/-- Partial correctness of the loop of `ConvertRegionToMINC`: the entries of
the indices listed are written, every other entry is left as it was. -/
theorem convertRegionLoop_ok (region : ImageIORegion) :
    ∀ (ds : List Nat) (a b a' b' : List (Option Nat)),
      convertRegionLoop region ds (a, b) = some (a', b') →
      a'.length = a.length ∧ b'.length = b.length ∧
        (∀ d, RegionAt region d a b → RegionAt region d a' b') ∧
        (∀ d ∈ ds, RegionAt region d a' b') ∧
        (∀ d, d ∉ ds → a'[d]? = a[d]? ∧ b'[d]? = b[d]?) := by
  intro ds
  induction ds with
  | nil =>
    intro a b a' b' h
    unfold convertRegionLoop at h
    cases h
    exact ⟨rfl, rfl, fun _ h => h, fun _ h => (List.not_mem_nil _ h).elim,
      fun _ _ => ⟨rfl, rfl⟩⟩
  | cons d0 ds ih =>
    intro a b a' b' h
    obtain ⟨index, size, hi, hs, ha, hb, hrest⟩ := convertRegionLoop_cons region d0 ds a b a' b' h
    obtain ⟨h1, h2, hstable, hall, hout⟩ := ih _ _ _ _ hrest
    refine ⟨by rw [h1, List.length_set], by rw [h2, List.length_set], ?_, ?_, ?_⟩
    · rintro d ⟨x, y, hx, hy, hax, hby⟩
      apply hstable
      refine ⟨x, y, hx, hy, ?_, ?_⟩
      · apply getElem?_set_stable _ _ _ _ _ hax
        intro hid; subst hid; rw [hi] at hx; cases hx; rfl
      · apply getElem?_set_stable _ _ _ _ _ hby
        intro hid; subst hid; rw [hs] at hy; cases hy; rfl
    · intro d hd
      rcases List.mem_cons.1 hd with hd | hd
      · subst hd
        apply hstable
        exact ⟨index, size, hi, hs, List.getElem?_set_self ha, List.getElem?_set_self hb⟩
      · exact hall d hd
    · intro d hd
      have hne : d0 ≠ d := fun hid => hd (by rw [hid]; exact List.mem_cons_self _ _)
      have hnot : d ∉ ds := fun hm => hd (List.mem_cons_of_mem _ hm)
      obtain ⟨o1, o2⟩ := hout d hnot
      rw [o1, o2, List.getElem?_set_ne hne, List.getElem?_set_ne hne]
      exact ⟨rfl, rfl⟩

/-- Total correctness of the loop of `ConvertRegionToMINC`. -/
theorem convertRegionLoop_total (region : ImageIORegion) :
    ∀ (ds : List Nat) (a b : List (Option Nat)),
      (∀ d ∈ ds, d < region.m_Index.length ∧ d < region.m_Size.length ∧
        d < a.length ∧ d < b.length) →
      ∃ a' b', convertRegionLoop region ds (a, b) = some (a', b') := by
  intro ds
  induction ds with
  | nil => intro a b _; exact ⟨a, b, rfl⟩
  | cons d0 ds ih =>
    intro a b hlt
    obtain ⟨h1, h2, h3, h4⟩ := hlt d0 (List.mem_cons_self _ _)
    obtain ⟨a', b', hab⟩ := ih (a.set d0 (some region.m_Index[d0]))
      (b.set d0 (some region.m_Size[d0]))
      (fun d hd => by
        obtain ⟨g1, g2, g3, g4⟩ := hlt d (List.mem_cons_of_mem _ hd)
        exact ⟨g1, g2, by rw [List.length_set]; exact g3, by rw [List.length_set]; exact g4⟩)
    refine ⟨a', b', ?_⟩
    unfold convertRegionLoop
    simp only [List.getElem?_eq_getElem h1, List.getElem?_eq_getElem h2, storeAt, h3, h4,
      if_true]
    exact hab

/-- The leading entries of an array in which `ConvertRegionToMINC` wrote one
entry per dimension of the region. -/
theorem take_of_RegionAt (values : List Nat) (array : List (Option Nat))
    (hlen : values.length ≤ array.length)
    (h : ∀ d, d < values.length → array[d]? = some (values[d]?)) :
    array.take values.length = values.map some := by
  apply List.ext_getElem?
  intro d
  by_cases hd : d < values.length
  · rw [List.getElem?_take_of_lt hd, h d hd, List.getElem?_map,
      List.getElem?_eq_getElem hd]
    rfl
  · rw [List.getElem?_eq_none (by rw [List.length_take]; omega),
      List.getElem?_eq_none (by rw [List.length_map]; omega)]

/-- The arrays `ConvertRegionToMINC` hands to the library: the region does not
have more dimensions than the arrays have entries, and entry `d` of each array
is the index, respectively the size, of the region in dimension `d`. -/
theorem ConvertRegionToMINC_arrays (region : ImageIORegion) (n : Nat)
    (st sz : List (Option Nat))
    (h : ConvertRegionToMINC region (List.replicate n none) (List.replicate n none)
      = some (st, sz)) :
    st.length = n ∧ sz.length = n ∧ region.m_ImageDimension ≤ n ∧
      (∀ d, d < region.m_ImageDimension →
        st[d]? = some (region.m_Index[d]?) ∧ sz[d]? = some (region.m_Size[d]?)) ∧
      (∀ d, region.m_ImageDimension ≤ d → d < n → st[d]? = some none ∧ sz[d]? = some none) := by
  unfold ConvertRegionToMINC at h
  obtain ⟨h1, h2, _, hall, hout⟩ := convertRegionLoop_ok region _ _ _ _ _ h
  rw [List.length_replicate] at h1 h2
  have hat : ∀ d, d < region.m_ImageDimension →
      st[d]? = some (region.m_Index[d]?) ∧ sz[d]? = some (region.m_Size[d]?) := by
    intro d hd
    obtain ⟨x, y, hx, hy, hax, hby⟩ := hall d (List.mem_range.2 hd)
    rw [hx, hy]
    exact ⟨hax, hby⟩
  refine ⟨h1, h2, ?_, hat, ?_⟩
  · rcases Nat.eq_zero_or_pos region.m_ImageDimension with h0 | hpos
    · omega
    · have hlast := (hat (region.m_ImageDimension - 1) (by omega)).1
      have hlt : region.m_ImageDimension - 1 < st.length := by
        rcases Nat.lt_or_ge (region.m_ImageDimension - 1) st.length with hlt | hge
        · exact hlt
        · rw [List.getElem?_eq_none hge] at hlast; cases hlast
      omega
  · intro d hd hdn
    obtain ⟨o1, o2⟩ := hout d (fun hm => by have := List.mem_range.1 hm; omega)
    rw [o1, o2, List.getElem?_replicate]
    simp [hdn]

/-- The library reads back the index and the size of the region. -/
theorem readArray_of_arrays (values : List Nat) (array : List (Option Nat))
    (hlen : values.length ≤ array.length)
    (h : ∀ d, d < values.length → array[d]? = some (values[d]?)) :
    readArray values.length array = some values := by
  unfold readArray
  rw [if_pos hlen, take_of_RegionAt values array hlen h]
  exact (allWritten_eq_some _ _).2 rfl

/-- The method `Read`, once `ConvertRegionToMINC` has produced its arrays, on an
open volume with as many dimensions as the region. -/
theorem Read_of_arrays (s : Sys) (h : Nat) (v : Volume) (st sz : List (Option Nat))
    (hvol : s.io.m_Volume = some h) (hopen : s.lib.handles.lookup h = some v)
    (hdim : s.io.m_IORegion.m_ImageDimension = v.dimensions.length)
    (hidx : s.io.m_IORegion.m_Index.length = s.io.m_IORegion.m_ImageDimension)
    (hsz : s.io.m_IORegion.m_Size.length = s.io.m_IORegion.m_ImageDimension)
    (hconv : ConvertRegionToMINC s.io.m_IORegion
      (List.replicate s.io.m_NumberOfDimensions none)
      (List.replicate s.io.m_NumberOfDimensions none) = some (st, sz)) :
    ∃ t, Read s =
      if (s.lib.fails (.miget_real_value_hyperslab h t st sz) ||
          !hyperslabInside s.io.m_IORegion.m_Index s.io.m_IORegion.m_Size v.dimensions) = true
      then .exception "error reading pixel values"
        { s with lib := s.lib.record (.miget_real_value_hyperslab h t st sz) }
      else .ok ((hyperslabIndices s.io.m_IORegion.m_Index s.io.m_IORegion.m_Size).map v.voxel)
        { s with lib := s.lib.record (.miget_real_value_hyperslab h t st sz) } := by
  obtain ⟨h1, h2, hle, hat, _⟩ := ConvertRegionToMINC_arrays _ _ st sz hconv
  have hra : readArray v.dimensions.length st = some s.io.m_IORegion.m_Index := by
    rw [← hdim, ← hidx]
    exact readArray_of_arrays _ _ (by rw [hidx, h1]; exact hle)
      (fun d hd => (hat d (by rw [← hidx]; exact hd)).1)
  have hrb : readArray v.dimensions.length sz = some s.io.m_IORegion.m_Size := by
    rw [← hdim, ← hsz]
    exact readArray_of_arrays _ _ (by rw [hsz, h2]; exact hle)
      (fun d hd => (hat d (by rw [← hsz]; exact hd)).2)
  refine ⟨if s.io.m_PixelType = .COMPLEX then ConvertComplexDataTypeToMINC s.io.m_ComponentType
    else ConvertScalarDataTypeToMINC s.io.m_ComponentType, ?_⟩
  unfold Read
  simp only [hconv, miget_real_value_hyperslab, LibState.volumeOf, hvol, hopen, hra, hrb,
    LibState.record]
  split_ifs <;> rfl

/-! ## Claims on `Read` -/

/-- C9: `Read` hands the region to the library without permuting axes
(`starts[d]` is the region index `d`, `sizes[d]` the region size `d`), so that,
the hyperslab read being a row-major copy, a normal return leaves in the buffer
exactly `m_0 * ... * m_(k-1)` elements, and the element of region coordinate
`(i_0, ..., i_(k-1))` sits at offset `((i_0 * m_1 + i_1) * m_2 + ...) + i_(k-1)`
and is the file value at index `(a_0 + i_0, ..., a_(k-1) + i_(k-1))`.  The call
returns normally when the region lies inside the volume and no query fails.
For the 4x4 file filled `0..15`, the 2x3 region at `(0,0)` reads
`[0,1,2,4,5,6]` and at `(1,1)` reads `[5,6,7,9,10,11]`. -/
theorem Read_row_major (s : Sys) (h : Nat) (v : Volume)
    (hvol : s.io.m_Volume = some h) (hopen : s.lib.handles.lookup h = some v)
    (hdim : s.io.m_IORegion.m_ImageDimension = v.dimensions.length)
    (hidx : s.io.m_IORegion.m_Index.length = s.io.m_IORegion.m_ImageDimension)
    (hsz : s.io.m_IORegion.m_Size.length = s.io.m_IORegion.m_ImageDimension) :
    ((∀ c, s.lib.fails c = false) →
      s.io.m_IORegion.m_ImageDimension ≤ s.io.m_NumberOfDimensions →
      hyperslabInside s.io.m_IORegion.m_Index s.io.m_IORegion.m_Size v.dimensions = true →
      ∃ buffer s', Read s = .ok buffer s') ∧
    (∀ buffer s', Read s = .ok buffer s' →
      (∃ t starts sizes,
        s'.lib.log = s.lib.log ++ [.miget_real_value_hyperslab h t starts sizes] ∧
        ∀ d, d < s.io.m_IORegion.m_ImageDimension →
          starts[d]? = some (s.io.m_IORegion.m_Index[d]?) ∧
          sizes[d]? = some (s.io.m_IORegion.m_Size[d]?)) ∧
      buffer.length = s.io.m_IORegion.m_Size.prod ∧
      ∀ coords, List.Forall₂ (fun i m => i < m) coords s.io.m_IORegion.m_Size →
        buffer[bufferOffset s.io.m_IORegion.m_Size coords]? =
          some (v.voxel (List.zipWith (fun a i => a + i) s.io.m_IORegion.m_Index coords))) ∧
    read4x4 (region2D 0 0 2 3) = some [0, 1, 2, 4, 5, 6] ∧
    read4x4 (region2D 1 1 2 3) = some [5, 6, 7, 9, 10, 11] := by
  have hlen : s.io.m_IORegion.m_Index.length = s.io.m_IORegion.m_Size.length := by
    rw [hidx, hsz]
  refine ⟨?_, ?_, by decide, by decide⟩
  · intro hf hle hin
    obtain ⟨st, sz, hconv⟩ := convertRegionLoop_total s.io.m_IORegion
      (List.range s.io.m_IORegion.m_ImageDimension)
      (List.replicate s.io.m_NumberOfDimensions none)
      (List.replicate s.io.m_NumberOfDimensions none)
      (fun d hd => by
        have hd' := List.mem_range.1 hd
        rw [List.length_replicate]
        omega)
    obtain ⟨t, ht⟩ := Read_of_arrays s h v st sz hvol hopen hdim hidx hsz hconv
    rw [ht, hf, hin]
    exact ⟨_, _, rfl⟩
  · intro buffer s' hread
    cases hconv : ConvertRegionToMINC s.io.m_IORegion
        (List.replicate s.io.m_NumberOfDimensions none)
        (List.replicate s.io.m_NumberOfDimensions none) with
    | none =>
      unfold Read at hread
      simp [hconv] at hread
    | some arrays =>
      obtain ⟨st, sz⟩ := arrays
      obtain ⟨t, ht⟩ := Read_of_arrays s h v st sz hvol hopen hdim hidx hsz hconv
      obtain ⟨_, _, _, hat, _⟩ := ConvertRegionToMINC_arrays _ _ st sz hconv
      rw [ht] at hread
      split_ifs at hread
      cases hread
      refine ⟨⟨t, st, sz, rfl, hat⟩, ?_, ?_⟩
      · rw [List.length_map, hyperslabIndices_length _ _ hlen]
      · intro coords hc
        rw [List.getElem?_map, hyperslabIndices_getElem? _ _ _ hlen hc]
        rfl

/-- Witness of C9 on the 4x4 file, for the 2x3 region at `(1,1)`: the buffer
has 6 elements and the coordinate `(1,2)`, at offset 5, holds the file value at
index `(2,3)`, which is 11. -/
theorem Read_row_major_witness :
    ∃ buffer s',
      Read { informed4x4 with io := SetIORegion (region2D 1 1 2 3) informed4x4.io }
        = .ok buffer s' ∧
      buffer.length = 6 ∧ buffer[5]? = some (11 : ℚ) := by
  have h := Read_row_major
    { informed4x4 with io := SetIORegion (region2D 1 1 2 3) informed4x4.io } 1 file4x4
    rfl rfl rfl rfl rfl
  obtain ⟨buffer, s', hs'⟩ := h.1 (fun _ => rfl) (by decide) (by decide)
  obtain ⟨_, hl, hat⟩ := h.2.1 buffer s' hs'
  refine ⟨buffer, s', hs', hl, ?_⟩
  have h5 := hat [1, 2] (by
    refine List.Forall₂.cons (by decide) (List.Forall₂.cons (by decide) List.Forall₂.nil))
  exact h5

/-- Every exception of `Read` comes after the call of the library's hyperslab
read: `Read` has no other exit that raises, and none that consults
`m_VolumeValid`. -/
theorem Read_exception_after_library_call (s s' : Sys) (what : String)
    (h : Read s = .exception what s') :
    ∃ volume t starts sizes,
      s'.lib.log = s.lib.log ++ [.miget_real_value_hyperslab volume t starts sizes] := by
  unfold Read at h
  cases hconv : ConvertRegionToMINC s.io.m_IORegion
      (List.replicate s.io.m_NumberOfDimensions none)
      (List.replicate s.io.m_NumberOfDimensions none) with
  | none => simp [hconv] at h
  | some arrays =>
    obtain ⟨st, sz⟩ := arrays
    simp only [hconv, miget_real_value_hyperslab] at h
    cases hv : s.lib.volumeOf s.io.m_Volume with
    | none => simp [hv] at h
    | some hvv =>
      obtain ⟨hd, v⟩ := hvv
      simp only [hv] at h
      cases hra : readArray v.dimensions.length st with
      | none => simp [hra] at h
      | some a =>
        cases hrb : readArray v.dimensions.length sz with
        | none => simp [hra, hrb] at h
        | some b =>
          simp only [hra, hrb] at h
          split_ifs at h <;> cases h <;> exact ⟨hd, _, st, sz, rfl⟩

/-- C10, evaluated: `ReadImageInformation` on a missing file leaves the instance
closed (`m_VolumeValid = false`) after raising its exception; `Read` on that
instance raises no exception: it copies the region into the arrays and hands
the stale handle to the library's hyperslab read, a call with no defined
behaviour.  `Read` on an instance that was never opened has no defined
behaviour either. -/
theorem Read_closed_instance_evaluation :
    (ReadImageInformation reopenMissing4x4).what? = some "cannot read file missing.mnc" ∧
    closed4x4.io.m_VolumeValid = false ∧
    ConvertRegionToMINC closed4x4.io.m_IORegion
      (List.replicate closed4x4.io.m_NumberOfDimensions none)
      (List.replicate closed4x4.io.m_NumberOfDimensions none)
      = some ([some 0, some 0], [some 2, some 3]) ∧
    closed4x4.lib.volumeOf closed4x4.io.m_Volume = none ∧
    Read closed4x4 = .undefined ∧
    fresh4x4.io.m_VolumeValid = false ∧ Read fresh4x4 = .undefined :=
  ⟨by decide, rfl, rfl, rfl, rfl, rfl, rfl⟩


/-! ## What `Read` does to the state, whatever the state -/

/-- Whenever `Read` ends in a state (a normal return or an exception), it has
made exactly one library call, the hyperslab read, with the transfer type
computed from the pixel and component types; nothing else has changed. -/
theorem Read_state (s s' : Sys) (h : (Read s).state? = some s') :
    ∃ volume starts sizes,
      s'.lib = s.lib.record (.miget_real_value_hyperslab volume
        (if s.io.m_PixelType = .COMPLEX then ConvertComplexDataTypeToMINC s.io.m_ComponentType
          else ConvertScalarDataTypeToMINC s.io.m_ComponentType) starts sizes) ∧
      s'.io = s.io := by
  unfold Read at h
  cases hconv : ConvertRegionToMINC s.io.m_IORegion
      (List.replicate s.io.m_NumberOfDimensions none)
      (List.replicate s.io.m_NumberOfDimensions none) with
  | none => simp [hconv, Res.state?] at h
  | some arrays =>
    obtain ⟨st, sz⟩ := arrays
    simp only [hconv, miget_real_value_hyperslab] at h
    cases hv : s.lib.volumeOf s.io.m_Volume with
    | none => simp [hv, Res.state?] at h
    | some hvv =>
      obtain ⟨hd, v⟩ := hvv
      simp only [hv] at h
      cases hra : readArray v.dimensions.length st with
      | none => simp [hra, Res.state?] at h
      | some a =>
        cases hrb : readArray v.dimensions.length sz with
        | none => simp [hra, hrb, Res.state?] at h
        | some b =>
          simp only [hra, hrb] at h
          refine ⟨hd, st, sz, ?_⟩
          split_ifs at h with hp hc hc <;>
            simp only [Res.state?, Option.some.injEq] at h <;>
            subst h <;> simp only [hp, if_true, if_false, and_self]

/-- C11, evaluated: on a file of class COMPLEX stored as unsigned bytes,
`ReadImageInformation` returns normally with pixel type COMPLEX and component
type UCHAR; `Read` then raises no exception: it hands the sentinel
`MI_TYPE_UNKNOWN` to the library's hyperslab read and returns what the library
returns.  The same holds for a scalar image whose component type was set to
ULONG. -/
theorem Read_unmapped_type_evaluation :
    (informedOn fileComplexUByte).io.m_VolumeValid = true ∧
    (informedOn fileComplexUByte).io.m_PixelType = .COMPLEX ∧
    (informedOn fileComplexUByte).io.m_ComponentType = .UCHAR ∧
    (Read { informedOn fileComplexUByte with
        io := SetIORegion (region2D 0 0 2 3) (informedOn fileComplexUByte).io }).what?
      = none ∧
    ((Read { informedOn fileComplexUByte with
        io := SetIORegion (region2D 0 0 2 3) (informedOn fileComplexUByte).io }).okState?.map
        fun s => s.lib.log.getLast?)
      = some (some (.miget_real_value_hyperslab 1 .MI_TYPE_UNKNOWN
          [some 0, some 0] [some 2, some 3])) ∧
    (informed4x4.io.m_PixelType = .SCALAR ∧
    ((Read { informed4x4 with
        io := SetComponentType .ULONG (SetIORegion (region2D 0 0 2 3) informed4x4.io) }).okState?.map
        fun s => s.lib.log.getLast?)
      = some (some (.miget_real_value_hyperslab 1 .MI_TYPE_UNKNOWN
          [some 0, some 0] [some 2, some 3]))) :=
  ⟨rfl, rfl, rfl, rfl, rfl, rfl, rfl⟩

/-- C16: the arrays `starts` and `sizes` of `Read` have one entry per image
dimension, and `ConvertRegionToMINC` writes one entry per region dimension.
When the region has at most as many dimensions as the image, every write is in
bounds; the entries from the region's dimension up to the number of dimensions
are never written, and the arrays are handed to the hyperslab read in that
state. -/
theorem Read_arrays_bounds (s : Sys)
    (hidx : s.io.m_IORegion.m_Index.length = s.io.m_IORegion.m_ImageDimension)
    (hsz : s.io.m_IORegion.m_Size.length = s.io.m_IORegion.m_ImageDimension)
    (hle : s.io.m_IORegion.m_ImageDimension ≤ s.io.m_NumberOfDimensions) :
    ∃ starts sizes,
      ConvertRegionToMINC s.io.m_IORegion
        (List.replicate s.io.m_NumberOfDimensions none)
        (List.replicate s.io.m_NumberOfDimensions none) = some (starts, sizes) ∧
      starts.length = s.io.m_NumberOfDimensions ∧
      sizes.length = s.io.m_NumberOfDimensions ∧
      (∀ d, d < s.io.m_IORegion.m_ImageDimension →
        starts[d]? = some (s.io.m_IORegion.m_Index[d]?) ∧
        sizes[d]? = some (s.io.m_IORegion.m_Size[d]?)) ∧
      (∀ d, s.io.m_IORegion.m_ImageDimension ≤ d → d < s.io.m_NumberOfDimensions →
        starts[d]? = some none ∧ sizes[d]? = some none) ∧
      Read s =
        match miget_real_value_hyperslab s.io.m_Volume
          (if s.io.m_PixelType = .COMPLEX then
            ConvertComplexDataTypeToMINC s.io.m_ComponentType
          else ConvertScalarDataTypeToMINC s.io.m_ComponentType) starts sizes s.lib with
        | .undefined => .undefined
        | .error lib => .exception "error reading pixel values" { s with lib := lib }
        | .value buffer lib => .ok buffer { s with lib := lib } := by
  obtain ⟨starts, sizes, hconv⟩ := convertRegionLoop_total s.io.m_IORegion
    (List.range s.io.m_IORegion.m_ImageDimension)
    (List.replicate s.io.m_NumberOfDimensions none)
    (List.replicate s.io.m_NumberOfDimensions none)
    (fun d hd => by
      have hd' := List.mem_range.1 hd
      rw [List.length_replicate]
      omega)
  have hconv' : ConvertRegionToMINC s.io.m_IORegion
      (List.replicate s.io.m_NumberOfDimensions none)
      (List.replicate s.io.m_NumberOfDimensions none) = some (starts, sizes) := hconv
  obtain ⟨h1, h2, _, hat, hout⟩ := ConvertRegionToMINC_arrays _ _ starts sizes hconv'
  refine ⟨starts, sizes, hconv', h1, h2, hat, hout, ?_⟩
  unfold Read
  simp only [hconv']

/-- Witness of C16 on the four-dimensional file `file4D` with a two-dimensional
region: entries 2 and 3 of both arrays are unwritten when the library is
called, and the library, which reads four entries, has no defined behaviour. -/
theorem Read_arrays_bounds_witness :
    ∃ starts sizes,
      ConvertRegionToMINC (region2D 0 0 2 3) (List.replicate 4 none) (List.replicate 4 none)
        = some (starts, sizes) ∧
      starts[1]? = some (some 0) ∧ sizes[1]? = some (some 3) ∧
      starts[3]? = some none ∧ sizes[3]? = some none ∧
      Read { informedOn file4D with
        io := SetIORegion (region2D 0 0 2 3) (informedOn file4D).io } = .undefined := by
  obtain ⟨starts, sizes, hconv, _, _, hat, hout, _⟩ := Read_arrays_bounds
    { informedOn file4D with io := SetIORegion (region2D 0 0 2 3) (informedOn file4D).io }
    rfl rfl (by decide)
  exact ⟨starts, sizes, hconv, (hat 1 (by decide)).1, (hat 1 (by decide)).2,
    (hout 3 (by decide) (by decide)).1, (hout 3 (by decide) (by decide)).2, rfl⟩

/-- A region with more dimensions than the image makes `ConvertRegionToMINC`
write past the end of the arrays. -/
theorem ConvertRegionToMINC_out_of_bounds (region : ImageIORegion) (n : Nat)
    (h : n < region.m_ImageDimension) :
    ConvertRegionToMINC region (List.replicate n none) (List.replicate n none) = none := by
  cases hconv : ConvertRegionToMINC region (List.replicate n none) (List.replicate n none) with
  | none => rfl
  | some arrays =>
    obtain ⟨st, sz⟩ := arrays
    have := (ConvertRegionToMINC_arrays _ _ st sz hconv).2.2.1
    omega


/-! ## The handle and shape invariants over sequences of calls -/

theorem Stable.refl (s : Sys) : Stable s s := ⟨rfl, rfl, rfl, rfl, fun h => h⟩

theorem Stable.trans {a b c : Sys} (h1 : Stable a b) (h2 : Stable b c) : Stable a c :=
  ⟨h2.1.trans h1.1, h2.2.1.trans h1.2.1, h2.2.2.1.trans h1.2.2.1,
    h2.2.2.2.1.trans h1.2.2.2.1, fun h => h2.2.2.2.2 (h1.2.2.2.2 h)⟩

theorem bind_state {α β : Type} (r : Res α) (k : α → Sys → Res β) (s' : Sys)
    (h : (r.bind k).state? = some s') :
    (∃ what, r = .exception what s') ∨ ∃ a s1, r = .ok a s1 ∧ (k a s1).state? = some s' := by
  cases r with
  | ok a s1 => exact Or.inr ⟨a, s1, rfl, h⟩
  | exception what s1 =>
    simp only [Res.bind, Res.state?, Option.some.injEq] at h
    subst h
    exact Or.inl ⟨what, rfl⟩
  | undefined => simp [Res.bind, Res.state?] at h

/-- A property kept by every pass through the body, whatever its outcome, is
kept by the loop. -/
theorem forLoop_state (P : Sys → Prop) (body : Nat → Sys → Res Unit)
    (hbody : ∀ d s s', (body d s).state? = some s' → P s → P s') :
    ∀ (ds : List Nat) (s s' : Sys), (forLoop body ds s).state? = some s' → P s → P s' := by
  intro ds
  induction ds with
  | nil =>
    intro s s' h hp
    simp only [forLoop, Res.state?, Option.some.injEq] at h
    subst h
    exact hp
  | cons d ds ih =>
    intro s s' h hp
    unfold forLoop at h
    rcases bind_state _ _ _ h with ⟨what, hw⟩ | ⟨a, s1, h1, h2⟩
    · exact hbody d s s' (by rw [hw]; rfl) hp
    · exact ih s1 s' h2 (hbody d s s1 (by rw [h1]; rfl) hp)

theorem ReadPixelInformation_stable (s s' : Sys)
    (h : (ReadPixelInformation s).state? = some s') : Stable s s' := by
  unfold ReadPixelInformation at h
  simp only [miget_data_class, miget_data_type, LibState.volumeOf, LibState.record] at h
  cases hv : s.io.m_Volume with
  | none => simp [hv, Res.state?] at h
  | some hd =>
    simp only [hv] at h
    cases hl : s.lib.handles.lookup hd with
    | none => simp [hl, Res.state?] at h
    | some v =>
      simp only [hl] at h
      have close : ∀ t : Sys, some t = some s' → t.lib.handles = s.lib.handles →
          t.lib.next = s.lib.next → t.io.m_Volume = some hd →
          t.io.m_VolumeValid = s.io.m_VolumeValid →
          (ShapeInvariant s.io → ShapeInvariant t.io) → Stable s s' := by
        intro t h6 h1 h2 h3 h4 h5
        cases h6
        exact ⟨h1, h2, h3.trans hv.symm, h4, h5⟩
      cases hf1 : s.lib.fails (.miget_data_class hd) <;>
        cases hf2 : s.lib.fails (.miget_data_type hd) <;>
        cases hc : v.dataClass <;>
        simp only [hf1, hf2, hc, Res.bind, hv, hl, Bool.false_eq_true, if_true, if_false]
          at h <;>
        (try split_ifs at h) <;>
        simp only [Res.state?] at h <;>
        exact close _ h rfl rfl (by first | rfl | exact hv) rfl (fun h => h)

theorem forLoop_stable (body : Nat → Sys → Res Unit)
    (hbody : ∀ d s s', (body d s).state? = some s' → Stable s s') :
    ∀ (ds : List Nat) (s s' : Sys), (forLoop body ds s).state? = some s' → Stable s s' := by
  intro ds s s' h
  exact forLoop_state (fun t => Stable s t) body
    (fun d t t' ht hp => Stable.trans hp (hbody d t t' ht)) ds s s' h (Stable.refl s)

/-- Fields with the same dimension count, the same handle array and vectors of
the same lengths keep `ShapeInvariant`. -/
theorem ShapeInvariant_of_lengths (io io' : MINCImageIOFields)
    (hn : io'.m_NumberOfDimensions = io.m_NumberOfDimensions)
    (ha : io'.m_VolumeDimension = io.m_VolumeDimension)
    (h1 : io'.m_Dimensions.length = io.m_Dimensions.length)
    (h2 : io'.m_Spacing.length = io.m_Spacing.length)
    (h3 : io'.m_Origin.length = io.m_Origin.length)
    (h4 : io'.m_Direction.length = io.m_Direction.length)
    (h : ShapeInvariant io) : ShapeInvariant io' := by
  obtain ⟨⟨g1, g2, g3, g4⟩, g5⟩ := h
  refine ⟨⟨?_, ?_, ?_, ?_⟩, ?_⟩
  · rw [h1, hn]; exact g1
  · rw [h2, hn]; exact g2
  · rw [h3, hn]; exact g3
  · rw [h4, hn]; exact g4
  · intro array harr
    rw [hn]
    exact g5 array (by rw [← ha]; exact harr)

theorem ComputeStrides_stable (s s' : Sys) (h : (ComputeStrides s).state? = some s') :
    Stable s s' := by
  unfold ComputeStrides at h
  cases hg : GetComponentSize s.io with
  | none =>
    simp only [hg, Res.state?, Option.some.injEq] at h
    subst h
    exact Stable.refl s
  | some size =>
    simp only [hg] at h
    cases h1 : (storeAt s.io.m_Strides 0 size).bind
        (fun st => storeAt st 1 (s.io.m_NumberOfComponents * size)) with
    | none => simp [h1, Res.state?] at h
    | some st =>
      simp only [h1] at h
      cases h2 : computeStridesLoop s.io.m_Dimensions
          ((List.range (s.io.m_NumberOfDimensions + 2)).drop 2) st with
      | none => simp [h2, Res.state?] at h
      | some st2 =>
        simp only [h2, Res.state?, Option.some.injEq] at h
        subst h
        exact ⟨rfl, rfl, rfl, rfl, fun h => h⟩

theorem readShapeBody_stable (d : Nat) (s s' : Sys)
    (h : (readShapeBody d s).state? = some s') : Stable s s' := by
  unfold readShapeBody at h
  cases hv : volumeDimensionAt s.io d with
  | none => simp [hv, Res.state?] at h
  | some handle =>
    simp only [hv, miget_dimension_size, LibState.record, SetDimensions_eq] at h
    split_ifs at h <;> simp only [Res.state?, Option.some.injEq] at h <;> subst h
    · exact ⟨rfl, rfl, rfl, rfl, fun h => h⟩
    · exact ⟨rfl, rfl, rfl, rfl,
        ShapeInvariant_of_lengths _ _ rfl rfl (by simp) rfl rfl rfl⟩

theorem readImageToWorldBody_stable (d : Nat) (s s' : Sys)
    (h : (readImageToWorldBody d s).state? = some s') : Stable s s' := by
  unfold readImageToWorldBody at h
  cases hv : volumeDimensionAt s.io d with
  | none => simp [hv, Res.state?] at h
  | some handle =>
    cases hf1 : s.lib.fails (.miget_dimension_separation handle) <;>
      cases hf2 : s.lib.fails (.miget_dimension_start handle) <;>
      cases hf3 : s.lib.fails (.miget_dimension_cosines handle) <;>
      simp only [hv, miget_dimension_separation, miget_dimension_start,
        miget_dimension_cosines, LibState.record, SetSpacing_eq, SetOrigin_eq,
        SetDirectionFromCosines, SetDirection_eq, hf1, hf2, hf3, Bool.false_eq_true,
        if_true, if_false, Res.state?, Option.some.injEq] at h <;>
      subst h <;>
      exact ⟨rfl, rfl, rfl, rfl,
        ShapeInvariant_of_lengths _ _ rfl rfl rfl (by simp) (by simp) (by simp)⟩

theorem ReadImageToWorldInformation_stable (s s' : Sys)
    (h : (ReadImageToWorldInformation s).state? = some s') : Stable s s' :=
  forLoop_stable _ readImageToWorldBody_stable _ s s' h

theorem ReadShapeInformation_stable (s s' : Sys)
    (h : (ReadShapeInformation s).state? = some s') : Stable s s' := by
  cases hv : s.io.m_Volume with
  | none =>
    unfold ReadShapeInformation at h
    simp [miget_volume_dimension_count, LibState.volumeOf, hv, Res.state?] at h
  | some hd =>
    cases hl : s.lib.handles.lookup hd with
    | none =>
      unfold ReadShapeInformation at h
      simp [miget_volume_dimension_count, LibState.volumeOf, hv, hl, Res.state?] at h
    | some v =>
      obtain ⟨f1, f2, f3⟩ := SetNumberOfDimensions_frame v.regularDimensions.length s.io
      have hshape : ShapeInvariant s.io → ∀ array : List (Option Dimension),
          array.length = v.regularDimensions.length →
          ShapeInvariant { SetNumberOfDimensions v.regularDimensions.length s.io with
            m_VolumeDimension := some array } := by
        intro hs array harr
        refine ⟨SetNumberOfDimensions_sized _ _ hs.1, ?_⟩
        intro array' h'
        cases h'
        rw [harr]
        exact f3.symm
      cases hc : s.lib.fails (.miget_volume_dimension_count hd) with
      | true =>
        unfold ReadShapeInformation at h
        simp only [miget_volume_dimension_count, LibState.volumeOf, LibState.record, hv, hl,
          hc, if_true, Res.state?, Option.some.injEq] at h
        subst h
        exact ⟨rfl, rfl, rfl, rfl, fun h => h⟩
      | false =>
        cases hdm : s.lib.fails (.miget_volume_dimensions hd v.regularDimensions.length) with
        | true =>
          unfold ReadShapeInformation at h
          simp only [miget_volume_dimension_count, miget_volume_dimensions,
            LibState.volumeOf, LibState.record, hv, hl, hc, hdm, f1, Bool.false_eq_true,
            if_true, if_false, Res.state?, Option.some.injEq] at h
          subst h
          exact ⟨rfl, rfl, hv.symm, f2,
            fun hs => hshape hs _ (List.length_replicate _ _)⟩
        | false =>
          rw [ReadShapeInformation_unfold s hd v hv hl hc hdm] at h
          have hloop := forLoop_stable _ readShapeBody_stable _ _ s' h
          refine Stable.trans ?_ hloop
          exact ⟨rfl, rfl, f1, f2, fun hs => hshape hs _ (List.length_map _ _)⟩

/-- The four steps of `ReadImageInformation` after the open. -/
theorem ReadImageInformation_steps_stable (s s' : Sys)
    (h : ((ReadPixelInformation s).bind fun _ s =>
        (ReadShapeInformation s).bind fun _ s =>
          (ReadImageToWorldInformation s).bind fun _ s => ComputeStrides s).state?
      = some s') : Stable s s' := by
  rcases bind_state _ _ _ h with ⟨w, hw⟩ | ⟨_, s1, h1, h⟩
  · exact ReadPixelInformation_stable s s' (by rw [hw]; rfl)
  have g1 := ReadPixelInformation_stable s s1 (by rw [h1]; rfl)
  rcases bind_state _ _ _ h with ⟨w, hw⟩ | ⟨_, s2, h2, h⟩
  · exact g1.trans (ReadShapeInformation_stable s1 s' (by rw [hw]; rfl))
  have g2 := g1.trans (ReadShapeInformation_stable s1 s2 (by rw [h2]; rfl))
  rcases bind_state _ _ _ h with ⟨w, hw⟩ | ⟨_, s3, h3, h⟩
  · exact g2.trans (ReadImageToWorldInformation_stable s2 s' (by rw [hw]; rfl))
  have g3 := g2.trans (ReadImageToWorldInformation_stable s2 s3 (by rw [h3]; rfl))
  exact g3.trans (ComputeStrides_stable s3 s' h)

/-- On an instance that satisfies the handle invariant, `CloseVolume` returns
normally: when the instance is open it closes the one open handle, which the
library holds open, and drops the dimension array; when the instance is closed
it changes nothing. -/
theorem CloseVolume_of_invariant (s : Sys) (hinv : HandleInvariant s) :
    (s.io.m_VolumeValid = false → CloseVolume s = .ok () s) ∧
    (s.io.m_VolumeValid = true → ∃ h,
      s.io.m_Volume = some h ∧
      CloseVolume s = .ok ()
        { lib := { s.lib with handles := [], log := s.lib.log ++ [.miclose_volume h] }
          io := { s.io with m_VolumeValid := false, m_VolumeDimension := none } }) := by
  constructor
  · intro hf
    unfold CloseVolume
    simp [hf]
  · intro ht
    obtain ⟨h, v, hvol, hhandles⟩ := hinv.2.1 ht
    refine ⟨h, hvol, ?_⟩
    unfold CloseVolume
    simp [ht, miclose_volume, LibState.volumeOf, LibState.record, hvol, hhandles,
      List.lookup]

/-- The state `CloseVolume` leaves satisfies the invariants and is closed. -/
theorem CloseVolume_invariant (s : Sys) (hinv : HandleInvariant s) :
    ∃ s1, CloseVolume s = .ok () s1 ∧ HandleInvariant s1 ∧
      s1.io.m_VolumeValid = false ∧ s1.lib.handles = [] ∧
      (ShapeInvariant s.io → ShapeInvariant s1.io) := by
  cases hflag : s.io.m_VolumeValid with
  | false =>
    refine ⟨s, (CloseVolume_of_invariant s hinv).1 hflag, hinv, hflag,
      (hinv.2.2 hflag).1, fun h => h⟩
  | true =>
    obtain ⟨h, _, hclose⟩ := (CloseVolume_of_invariant s hinv).2 hflag
    refine ⟨_, hclose, ?_, rfl, rfl, ?_⟩
    · exact ⟨fun e he => (List.not_mem_nil _ he).elim, fun hc => Bool.noConfusion hc,
        fun _ => ⟨rfl, rfl⟩⟩
    · intro hs
      exact ⟨hs.1, fun array harr => by cases harr⟩

theorem filter_other_handles (handles : List (Nat × Volume)) (n : Nat)
    (h : ∀ e ∈ handles, e.1 < n) : handles.filter (fun e => e.1 != n) = handles := by
  apply List.filter_eq_self.2
  intro e he
  have := h e he
  simp only [bne_iff_ne, ne_eq]
  omega

/-- On an instance that satisfies the handle invariant, `CanReadFile` returns
normally, with `true` exactly when the file opens; it closes the handle it
opened, so that the open handles are the same before and after, and it leaves
the instance fields alone. -/
theorem CanReadFile_of_invariant (filename : String) (s : Sys) (hinv : HandleInvariant s) :
    ∃ b s', CanReadFile filename s = .ok b s' ∧ s'.io = s.io ∧
      s'.lib.handles = s.lib.handles ∧ HandleInvariant s' ∧
      b = (s.lib.files.lookup filename).isSome ∧
      s'.lib.log = s.lib.log ++
        (if b = true then [.miopen_volume filename, .miclose_volume s.lib.next]
          else [.miopen_volume filename]) := by
  have hkeep := filter_other_handles s.lib.handles s.lib.next hinv.1
  cases hfile : s.lib.files.lookup filename with
  | none =>
    refine ⟨false, { s with lib := s.lib.record (.miopen_volume filename) }, ?_, rfl, rfl,
      hinv, rfl, rfl⟩
    unfold CanReadFile
    simp [miopen_volume, LibState.record, hfile]
  | some v =>
    refine ⟨true, { s with lib := { s.lib with
        next := s.lib.next + 1
        log := s.lib.log ++ [.miopen_volume filename, .miclose_volume s.lib.next] } },
      ?_, rfl, rfl, ?_, rfl, rfl⟩
    · unfold CanReadFile
      simp [miopen_volume, miclose_volume, LibState.volumeOf, LibState.record, hfile,
        List.lookup, List.filter_cons, hkeep]
    · refine ⟨fun e he => Nat.lt_succ_of_lt (hinv.1 e he), hinv.2.1, hinv.2.2⟩

/-- The invariants hold after `ReadImageInformation`, however it ends. -/
theorem ReadImageInformation_invariant (s s' : Sys)
    (hinv : HandleInvariant s) (hshape : ShapeInvariant s.io)
    (h : (ReadImageInformation s).state? = some s') :
    HandleInvariant s' ∧ ShapeInvariant s'.io := by
  obtain ⟨s1, hclose, hinv1, hflag1, hh1, hshape1⟩ := CloseVolume_invariant s hinv
  unfold ReadImageInformation at h
  rw [hclose] at h
  simp only [Res.bind, miopen_volume, LibState.record] at h
  cases hfile : s1.lib.files.lookup s1.io.m_FileName with
  | none =>
    simp only [hfile, Res.state?, Option.some.injEq] at h
    subst h
    exact ⟨hinv1, hshape1 hshape⟩
  | some v =>
    simp only [hfile] at h
    have hst := ReadImageInformation_steps_stable _ s' h
    obtain ⟨g1, g2, g3, g4, g5⟩ := hst
    refine ⟨⟨?_, ?_, ?_⟩, g5 ?_⟩
    · intro e he
      rw [g1] at he
      rw [g2]
      simp only [hh1, List.mem_singleton] at he
      subst he
      exact Nat.lt_succ_self _
    · intro _
      exact ⟨s1.lib.next, v, g3, by rw [g1, hh1]⟩
    · intro hf
      rw [g4] at hf
      cases hf
    · obtain ⟨hv, _⟩ := hshape1 hshape
      exact ⟨hv, fun array harr => by
        have := (hinv1.2.2 hflag1).2
        rw [this] at harr
        cases harr⟩

theorem Initial_invariant (s : Sys) (h : Initial s) :
    HandleInvariant s ∧ ShapeInvariant s.io := by
  obtain ⟨hio, hh⟩ := h
  refine ⟨⟨?_, ?_, ?_⟩, ⟨?_, ?_⟩⟩
  · intro e he
    rw [hh] at he
    exact (List.not_mem_nil _ he).elim
  · intro hf
    rw [hio] at hf
    cases hf
  · intro _
    rw [hio]
    exact ⟨hh, rfl⟩
  · rw [hio]
    exact ⟨rfl, rfl, rfl, rfl⟩
  · intro array harr
    rw [hio] at harr
    cases harr

/-- Every call keeps the invariants, whenever it ends in a state. -/
theorem Op_run_invariant (op : Op) (s s' : Sys)
    (hinv : HandleInvariant s) (hshape : ShapeInvariant s.io) (h : op.run s = some s') :
    HandleInvariant s' ∧ ShapeInvariant s'.io := by
  cases op with
  | SetFileName filename =>
    simp only [Op.run, Option.some.injEq] at h
    subst h
    exact ⟨hinv, hshape⟩
  | SetIORegion region =>
    simp only [Op.run, Option.some.injEq] at h
    subst h
    exact ⟨hinv, hshape⟩
  | CanReadFile filename =>
    obtain ⟨b, t, hrun, hio, _, hinv', _⟩ := CanReadFile_of_invariant filename s hinv
    simp only [Op.run, hrun, Res.state?, Option.some.injEq] at h
    subst h
    exact ⟨hinv', by rw [hio]; exact hshape⟩
  | ReadImageInformation => exact ReadImageInformation_invariant s s' hinv hshape h
  | Read =>
    obtain ⟨volume, starts, sizes, hlib, hio⟩ := Read_state s s' h
    refine ⟨⟨?_, ?_, ?_⟩, by rw [hio]; exact hshape⟩
    · rw [hlib]; exact hinv.1
    · rw [hlib, hio]; exact hinv.2.1
    · rw [hlib, hio]; exact hinv.2.2
  | CloseVolume =>
    obtain ⟨s1, hclose, hinv1, _, _, hshape1⟩ := CloseVolume_invariant s hinv
    simp only [Op.run, hclose, Res.state?, Option.some.injEq] at h
    subst h
    exact ⟨hinv1, hshape1 hshape⟩
  | destructor =>
    obtain ⟨s1, hclose, hinv1, _, _, hshape1⟩ := CloseVolume_invariant s hinv
    simp only [Op.run, hclose, Res.state?, Option.some.injEq] at h
    subst h
    exact ⟨hinv1, hshape1 hshape⟩

/-- The invariants hold in every state a sequence of calls reaches from a
newly constructed instance. -/
theorem runOps_invariant :
    ∀ (ops : List Op) (s s' : Sys), HandleInvariant s → ShapeInvariant s.io →
      runOps ops s = some s' → HandleInvariant s' ∧ ShapeInvariant s'.io := by
  intro ops
  induction ops with
  | nil =>
    intro s s' hinv hshape h
    simp only [runOps, Option.some.injEq] at h
    subst h
    exact ⟨hinv, hshape⟩
  | cons op ops ih =>
    intro s s' hinv hshape h
    unfold runOps at h
    cases hop : op.run s with
    | none => simp [hop] at h
    | some s1 =>
      rw [hop] at h
      obtain ⟨h1, h2⟩ := Op_run_invariant op s s1 hinv hshape hop
      exact ih s1 s' h1 h2 h

theorem reachable_invariant (s0 s : Sys) (ops : List Op) (hinit : Initial s0)
    (hrun : runOps ops s0 = some s) : HandleInvariant s ∧ ShapeInvariant s.io :=
  runOps_invariant ops s0 s (Initial_invariant s0 hinit).1 (Initial_invariant s0 hinit).2 hrun

/-! ## Claims on the handle -/

/-- C13: over every sequence of calls on an instance (`CanReadFile`,
`ReadImageInformation`, `Read`, `CloseVolume`, destruction, and the setters of
the file name and the region), the number of handles opened and not yet closed
is 1 when `m_VolumeValid` is true and 0 otherwise, and the open handle is the
one held in `m_Volume`; `ReadImageInformation` on an open instance closes the
held handle and attempts the new open in the library state that results;
`CanReadFile` closes the handle it opens; and every close is of an open handle,
so that none is closed twice. -/
theorem handle_ownership (s0 s : Sys) (ops : List Op) (hinit : Initial s0)
    (hrun : runOps ops s0 = some s) :
    s.lib.handles.length = (if s.io.m_VolumeValid = true then 1 else 0) ∧
    (s.io.m_VolumeValid = true →
      ∃ h v, s.io.m_Volume = some h ∧ s.lib.handles = [(h, v)]) ∧
    (∃ s1, CloseVolume s = .ok () s1 ∧ s1.lib.handles = [] ∧ s1.io.m_VolumeValid = false) ∧
    (s.io.m_VolumeValid = true → ∃ h, s.io.m_Volume = some h ∧
      ReadImageInformation s =
        match miopen_volume s.io.m_FileName
          { s.lib with handles := [], log := s.lib.log ++ [.miclose_volume h] } with
        | .undefined => .undefined
        | .error lib =>
          .exception ("cannot read file " ++ s.io.m_FileName)
            { lib := lib
              io := { s.io with m_VolumeValid := false, m_VolumeDimension := none } }
        | .value volume lib =>
          (ReadPixelInformation
            { lib := lib
              io := { s.io with
                m_VolumeValid := true, m_VolumeDimension := none, m_Volume := some volume } }).bind
            fun _ s => (ReadShapeInformation s).bind fun _ s =>
              (ReadImageToWorldInformation s).bind fun _ s => ComputeStrides s) ∧
    (∀ filename, ∃ b s', CanReadFile filename s = .ok b s' ∧ s'.io = s.io ∧
      s'.lib.handles = s.lib.handles ∧
      s'.lib.log = s.lib.log ++
        (if b = true then [.miopen_volume filename, .miclose_volume s.lib.next]
          else [.miopen_volume filename])) := by
  obtain ⟨hinv, _⟩ := reachable_invariant s0 s ops hinit hrun
  refine ⟨?_, hinv.2.1, ?_, ?_, ?_⟩
  · cases hflag : s.io.m_VolumeValid with
    | false => rw [(hinv.2.2 hflag).1]; rfl
    | true =>
      obtain ⟨h, v, _, hh⟩ := hinv.2.1 hflag
      rw [hh]; rfl
  · obtain ⟨s1, hclose, _, hflag1, hh1, _⟩ := CloseVolume_invariant s hinv
    exact ⟨s1, hclose, hh1, hflag1⟩
  · intro hflag
    obtain ⟨h, hvol, hclose⟩ := (CloseVolume_of_invariant s hinv).2 hflag
    refine ⟨h, hvol, ?_⟩
    unfold ReadImageInformation
    rw [hclose]
    rfl
  · intro filename
    obtain ⟨b, s', h1, h2, h3, _, _, h6⟩ := CanReadFile_of_invariant filename s hinv
    exact ⟨b, s', h1, h2, h3, h6⟩

/-- Witness of C13: after `CanReadFile`, `ReadImageInformation`, a region
read and a second `ReadImageInformation` on the 4x4 file, one handle is open
and the instance is open; after destruction none is. -/
theorem handle_ownership_witness :
    (∃ s, runOps [.SetFileName "test.mnc", .CanReadFile "test.mnc", .ReadImageInformation,
        .SetIORegion (region2D 0 0 2 3), .Read, .ReadImageInformation]
        (constructedOn file4x4) = some s ∧
      s.io.m_VolumeValid = true ∧ s.lib.handles.length = 1) ∧
    (∃ s, runOps [.SetFileName "test.mnc", .ReadImageInformation, .destructor]
        (constructedOn file4x4) = some s ∧
      s.io.m_VolumeValid = false ∧ s.lib.handles.length = 0) := by
  constructor
  · obtain ⟨s, hs⟩ := Option.isSome_iff_exists.1
      (show (runOps [.SetFileName "test.mnc", .CanReadFile "test.mnc",
        .ReadImageInformation, .SetIORegion (region2D 0 0 2 3), .Read,
        .ReadImageInformation] (constructedOn file4x4)).isSome = true from rfl)
    have h := handle_ownership (constructedOn file4x4) s _ ⟨rfl, rfl⟩ hs
    have hflag : s.io.m_VolumeValid = true := by
      have : (runOps [.SetFileName "test.mnc", .CanReadFile "test.mnc",
        .ReadImageInformation, .SetIORegion (region2D 0 0 2 3), .Read,
        .ReadImageInformation] (constructedOn file4x4)).map
          (fun s => s.io.m_VolumeValid) = some true := rfl
      rw [hs] at this
      exact Option.some.inj this
    refine ⟨s, hs, hflag, ?_⟩
    rw [h.1, if_pos hflag]
  · obtain ⟨s, hs⟩ := Option.isSome_iff_exists.1
      (show (runOps [.SetFileName "test.mnc", .ReadImageInformation, .destructor]
        (constructedOn file4x4)).isSome = true from rfl)
    have h := handle_ownership (constructedOn file4x4) s _ ⟨rfl, rfl⟩ hs
    have hflag : s.io.m_VolumeValid = false := by
      have : (runOps [.SetFileName "test.mnc", .ReadImageInformation, .destructor]
        (constructedOn file4x4)).map (fun s => s.io.m_VolumeValid) = some false := rfl
      rw [hs] at this
      exact Option.some.inj this
    refine ⟨s, hs, hflag, ?_⟩
    rw [h.1, hflag]
    rfl

theorem CloseVolume_closed (t : Sys) (h : t.io.m_VolumeValid = false) :
    CloseVolume t = .ok () t := by
  unfold CloseVolume
  simp [h]

theorem CloseVolume_ok_closed (t t1 : Sys) (h : CloseVolume t = .ok () t1) :
    t1.io.m_VolumeValid = false ∧
      (t.io.m_VolumeValid = true → t1.io.m_VolumeDimension = none) := by
  cases hflag : t.io.m_VolumeValid with
  | false =>
    rw [CloseVolume_closed t hflag] at h
    cases h
    exact ⟨hflag, fun hc => Bool.noConfusion hc⟩
  | true =>
    unfold CloseVolume at h
    simp only [hflag, Bool.not_true, Bool.false_eq_true, if_false] at h
    split at h
    · cases h
    · cases h; exact ⟨rfl, fun _ => rfl⟩
    · cases h; exact ⟨rfl, fun _ => rfl⟩

/-- C14: `CloseVolume` is idempotent and does nothing on a closed instance.
From every state a sequence of calls reaches, `CloseVolume` returns, a second
`CloseVolume` leaves the state of the first unchanged, and that state has
`m_VolumeValid = false` and a null dimension array.  From any state whatever, a
`CloseVolume` that returns leaves a state on which `CloseVolume` changes
nothing, and on a closed instance `CloseVolume` returns the state it was given:
no field changes and the log of library calls is the same. -/
theorem CloseVolume_idempotent (s0 s : Sys) (ops : List Op) (hinit : Initial s0)
    (hrun : runOps ops s0 = some s) :
    (∃ s1, CloseVolume s = .ok () s1 ∧ CloseVolume s1 = .ok () s1 ∧
      s1.io.m_VolumeValid = false ∧ s1.io.m_VolumeDimension = none) ∧
    (s.io.m_VolumeValid = false → CloseVolume s = .ok () s) ∧
    (∀ t t1 : Sys, CloseVolume t = .ok () t1 →
      CloseVolume t1 = .ok () t1 ∧ t1.io.m_VolumeValid = false) ∧
    (∀ t : Sys, t.io.m_VolumeValid = false → CloseVolume t = .ok () t) := by
  obtain ⟨hinv, _⟩ := reachable_invariant s0 s ops hinit hrun
  refine ⟨?_, CloseVolume_closed s, ?_, CloseVolume_closed⟩
  · obtain ⟨s1, hclose, hinv1, hflag1, _, _⟩ := CloseVolume_invariant s hinv
    exact ⟨s1, hclose, CloseVolume_closed s1 hflag1, hflag1, (hinv1.2.2 hflag1).2⟩
  · intro t t1 h
    have hc := (CloseVolume_ok_closed t t1 h).1
    exact ⟨CloseVolume_closed t1 hc, hc⟩

/-- Witness of C14 on the instance that has read the 4x4 file: the first
`CloseVolume` closes the volume, the second changes nothing. -/
theorem CloseVolume_idempotent_witness :
    ∃ s s1, runOps [.SetFileName "test.mnc", .ReadImageInformation]
        (constructedOn file4x4) = some s ∧
      s.io.m_VolumeValid = true ∧
      CloseVolume s = .ok () s1 ∧ CloseVolume s1 = .ok () s1 ∧
      s1.io.m_VolumeValid = false ∧ s1.io.m_VolumeDimension = none := by
  obtain ⟨s, hs⟩ := Option.isSome_iff_exists.1
    (show (runOps [.SetFileName "test.mnc", .ReadImageInformation]
      (constructedOn file4x4)).isSome = true from rfl)
  have hflag : s.io.m_VolumeValid = true := by
    have : (runOps [.SetFileName "test.mnc", .ReadImageInformation]
      (constructedOn file4x4)).map (fun s => s.io.m_VolumeValid) = some true := rfl
    rw [hs] at this
    exact Option.some.inj this
  obtain ⟨⟨s1, h1, h2, h3, h4⟩, _⟩ :=
    CloseVolume_idempotent (constructedOn file4x4) s _ ⟨rfl, rfl⟩ hs
  exact ⟨s, s1, hs, hflag, h1, h2, h3, h4⟩


/-! ## `ReadImageInformation`, from the open to the strides, on a normal return -/

theorem bind_ok {α β : Type} (r : Res α) (k : α → Sys → Res β) (b : β) (s' : Sys)
    (h : r.bind k = .ok b s') : ∃ a s1, r = .ok a s1 ∧ k a s1 = .ok b s' := by
  cases r with
  | ok a s1 => exact ⟨a, s1, rfl, h⟩
  | exception what s1 => simp [Res.bind] at h
  | undefined => simp [Res.bind] at h

theorem state_of_ok {α : Type} (r : Res α) (a : α) (s' : Sys) (h : r = .ok a s') :
    r.state? = some s' := by
  rw [h]; rfl

/-- The loop of `ReadImageToWorldInformation` does not store to
`m_Dimensions`. -/
theorem forLoop_world_dimensions :
    ∀ (ds : List Nat) (s s' : Sys), forLoop readImageToWorldBody ds s = .ok () s' →
      s'.io.m_Dimensions = s.io.m_Dimensions := by
  intro ds
  induction ds with
  | nil =>
    intro s s' h
    unfold forLoop at h
    cases h
    rfl
  | cons d0 ds ih =>
    intro s s' h
    obtain ⟨s1, hb, hrest⟩ := forLoop_cons_ok _ _ _ _ _ h
    obtain ⟨handle, _, hio, _⟩ := readImageToWorldBody_ok d0 s s1 hb
    rw [ih s1 s' hrest, hio, worldEffect_eq]

/-- A normal return of `ComputeStrides` has stored to `m_Strides` only. -/
theorem ComputeStrides_ok (s s' : Sys) (h : ComputeStrides s = .ok () s') :
    ∃ strides, s' = { s with io := { s.io with m_Strides := strides } } := by
  unfold ComputeStrides at h
  cases hg : GetComponentSize s.io with
  | none => simp [hg] at h
  | some size =>
    simp only [hg] at h
    cases h1 : (storeAt s.io.m_Strides 0 size).bind
        (fun st => storeAt st 1 (s.io.m_NumberOfComponents * size)) with
    | none => simp [h1] at h
    | some st =>
      simp only [h1] at h
      cases h2 : computeStridesLoop s.io.m_Dimensions
          ((List.range (s.io.m_NumberOfDimensions + 2)).drop 2) st with
      | none => simp [h2] at h
      | some st2 =>
        simp only [h2] at h
        cases h
        exact ⟨st2, rfl⟩

/-- A normal return of `ReadImageInformation`, on an instance that satisfies
the invariants: the file named by `m_FileName` opened as a volume `v`, the
instance is open on it, and the fields describe the regularly sampled
dimensions of `v` in file order. -/
theorem ReadImageInformation_ok (s s' : Sys)
    (hinv : HandleInvariant s) (hshape : ShapeInvariant s.io)
    (h : ReadImageInformation s = .ok () s') :
    ∃ v, s.lib.files.lookup s.io.m_FileName = some v ∧
      s'.io.m_VolumeValid = true ∧
      WorldReady v.regularDimensions s'.io ∧
      s'.io.m_Dimensions = v.regularDimensions.map (fun d => d.size) ∧
      ∀ d, d < v.regularDimensions.length → WorldAt v.regularDimensions d s'.io := by
  have hfiles : ∃ s1, CloseVolume s = .ok () s1 ∧ s1.lib.files = s.lib.files ∧
      s1.io.m_FileName = s.io.m_FileName ∧ s1.lib.handles = [] ∧
      ShapeInvariant s1.io := by
    cases hflag : s.io.m_VolumeValid with
    | false =>
      exact ⟨s, (CloseVolume_of_invariant s hinv).1 hflag, rfl, rfl,
        (hinv.2.2 hflag).1, hshape⟩
    | true =>
      obtain ⟨hd, _, hclose⟩ := (CloseVolume_of_invariant s hinv).2 hflag
      exact ⟨_, hclose, rfl, rfl, rfl, ⟨hshape.1, fun array harr => by cases harr⟩⟩
  obtain ⟨s1, hclose, hf1, hn1, hh1, hshape1⟩ := hfiles
  unfold ReadImageInformation at h
  rw [hclose] at h
  simp only [Res.bind, miopen_volume, LibState.record] at h
  rw [← hf1, ← hn1]
  cases hfile : s1.lib.files.lookup s1.io.m_FileName with
  | none => simp [hfile] at h
  | some v =>
    simp only [hfile] at h
    refine ⟨v, rfl, ?_⟩
    obtain ⟨_, s3, h3, h⟩ := bind_ok _ _ _ _ h
    obtain ⟨_, s4, h4, h⟩ := bind_ok _ _ _ _ h
    obtain ⟨_, s5, h5, h⟩ := bind_ok _ _ _ _ h
    have g3 := ReadPixelInformation_stable _ s3 (state_of_ok _ _ _ h3)
    have g4 := ReadShapeInformation_stable s3 s4 (state_of_ok _ _ _ h4)
    have g5 := ReadImageToWorldInformation_stable s4 s5 (state_of_ok _ _ _ h5)
    have hvol3 : s3.io.m_Volume = some s1.lib.next := g3.2.2.1
    have hopen3 : s3.lib.handles.lookup s1.lib.next = some v := by
      rw [g3.1, hh1]
      simp [List.lookup]
    have hshape3 : ShapeInvariant s3.io := g3.2.2.2.2 hshape1
    have hdims := (ReadShapeInformation_file_order s3 s1.lib.next v hvol3 hopen3
      hshape3.1.1).2 s4 h4
    have hready4 := ReadShapeInformation_WorldReady s3 s4 s1.lib.next v hvol3 hopen3
      hshape3.1 h4
    have hworld := forLoop_world_ok v.regularDimensions
      (List.range s4.io.m_NumberOfDimensions) s4 s5 hready4 h5
    have hat := ReadImageToWorldInformation_ok v.regularDimensions s4 s5 hready4 h5
    have hdim5 : s5.io.m_Dimensions = s4.io.m_Dimensions :=
      forLoop_world_dimensions _ s4 s5 h5
    have hflag5 : s5.io.m_VolumeValid = true := by
      rw [g5.2.2.2.1, g4.2.2.2.1, g3.2.2.2.1]
    obtain ⟨strides, hs'⟩ := ComputeStrides_ok s5 s' h
    subst hs'
    exact ⟨hflag5, hworld.1, hdim5.trans hdims.2.1, hat⟩

theorem okState_eq (r : Res Unit) (s' : Sys) (h : r.okState? = some s') : r = .ok () s' := by
  cases r with
  | ok a s1 =>
    simp only [Res.okState?, Option.some.injEq] at h
    subst h
    rfl
  | exception what s1 => simp [Res.okState?] at h
  | undefined => simp [Res.okState?] at h

/-! ## Claims on the open state -/

/-- C12, as stated, fails.  On a file of a data class the reader does not
handle, `ReadImageInformation` raises its exception after the open and leaves
the instance open with no dimension array; and on a file with one regularly
sampled dimension it returns normally with a dimension count of 1. -/
theorem open_state_counterexample :
    ¬ (∀ (s0 s : Sys) (ops : List Op), Initial s0 → runOps ops s0 = some s →
        s.io.m_VolumeValid = true →
        ∃ array, s.io.m_VolumeDimension = some array ∧
          array.length = s.io.m_NumberOfDimensions ∧
          2 ≤ s.io.m_NumberOfDimensions ∧ s.io.m_NumberOfDimensions ≤ 4) ∧
    (ReadImageInformation
      { constructedOn fileRecordClass with
        io := SetFileName "test.mnc" (constructedOn fileRecordClass).io }).what?
      = some "unhandled data class" ∧
    ((runOps [.SetFileName "test.mnc", .ReadImageInformation]
        (constructedOn fileRecordClass)).map
        fun s => (s.io.m_VolumeValid, s.io.m_VolumeDimension)) = some (true, none) ∧
    ((ReadImageInformation
      { constructedOn file1D with
        io := SetFileName "test.mnc" (constructedOn file1D).io }).okState?.map
        fun s => (s.io.m_VolumeValid, s.io.m_NumberOfDimensions)) = some (true, 1) := by
  refine ⟨?_, rfl, rfl, rfl⟩
  intro hall
  obtain ⟨s, hs⟩ := Option.isSome_iff_exists.1
    (show (runOps [.SetFileName "test.mnc", .ReadImageInformation]
      (constructedOn fileRecordClass)).isSome = true from rfl)
  have hval : (runOps [.SetFileName "test.mnc", .ReadImageInformation]
      (constructedOn fileRecordClass)).map
      (fun s => (s.io.m_VolumeValid, s.io.m_VolumeDimension)) = some (true, none) := rfl
  rw [hs] at hval
  simp only [Option.map_some', Option.some.injEq, Prod.mk.injEq] at hval
  obtain ⟨array, harr, _⟩ := hall (constructedOn fileRecordClass) s _ ⟨rfl, rfl⟩ hs hval.1
  rw [hval.2] at harr
  cases harr

/-- C12, amended: in every state a sequence of calls reaches, an open instance
holds a handle that the library holds open, a closed instance has no dimension
array, and a dimension array that is present has as many entries as the
reported dimension count; and after every `ReadImageInformation` that returns
normally the instance is open, the dimension array is present with every entry
written, and its length and the reported dimension count are the number of
regularly sampled dimensions of the file, whatever that number is. -/
theorem open_state_shape (s0 s : Sys) (ops : List Op) (hinit : Initial s0)
    (hrun : runOps ops s0 = some s) :
    (s.io.m_VolumeValid = true →
      ∃ h v, s.io.m_Volume = some h ∧ s.lib.handles = [(h, v)]) ∧
    (s.io.m_VolumeValid = false → s.io.m_VolumeDimension = none) ∧
    (∀ array, s.io.m_VolumeDimension = some array →
      array.length = s.io.m_NumberOfDimensions) ∧
    ∀ s', ReadImageInformation s = .ok () s' →
      ∃ v, s.lib.files.lookup s.io.m_FileName = some v ∧
        s'.io.m_VolumeValid = true ∧
        s'.io.m_VolumeDimension = some (v.regularDimensions.map some) ∧
        s'.io.m_NumberOfDimensions = v.regularDimensions.length := by
  obtain ⟨hinv, hshape⟩ := reachable_invariant s0 s ops hinit hrun
  refine ⟨hinv.2.1, fun hf => (hinv.2.2 hf).2, hshape.2, ?_⟩
  intro s' h
  obtain ⟨v, hv, hflag, hready, _, _⟩ := ReadImageInformation_ok s s' hinv hshape h
  exact ⟨v, hv, hflag, hready.1, hready.2.1⟩

/-- Witness of the amended C12 on the file with a single dimension: after
`ReadImageInformation` the instance is open, with a dimension array of one
entry and a dimension count of 1. -/
theorem open_state_shape_witness :
    ∃ s', ReadImageInformation
        { constructedOn file1D with
          io := SetFileName "test.mnc" (constructedOn file1D).io } = .ok () s' ∧
      s'.io.m_VolumeValid = true ∧
      s'.io.m_VolumeDimension = some [some (plainDimension 4 (1, 0, 0))] ∧
      s'.io.m_NumberOfDimensions = 1 := by
  obtain ⟨s', hs'⟩ := Option.isSome_iff_exists.1
    (show (ReadImageInformation
      { constructedOn file1D with
        io := SetFileName "test.mnc" (constructedOn file1D).io }).okState?.isSome = true
      from rfl)
  have hok := okState_eq _ s' hs'
  obtain ⟨v, hv, h1, h2, h3⟩ := (open_state_shape (constructedOn file1D)
    { constructedOn file1D with
      io := SetFileName "test.mnc" (constructedOn file1D).io }
    [.SetFileName "test.mnc"] ⟨rfl, rfl⟩ rfl).2.2.2 s' hok
  have hv' : some file1D = some v := hv
  cases hv'
  exact ⟨s', hok, h1, h2, h3⟩

/-! ## Claims on the order of the dimensions -/

/-- C15, as stated, fails: in the file of the test `OriginTest3D` created with
`-zxy` the dimensions are declared in the order z, x, y, and the sizes and
origins reported at the indices 0, 1, 2 are those of z, x, y, not of x, y, z. -/
theorem canonical_order_counterexample :
    ¬ (∀ (dx dy dz : Dimension) (v : Volume), v.dimensions.Perm [dx, dy, dz] →
        (∀ d ∈ v.dimensions, d.regularlySampled = true) →
        ∀ s', ReadImageInformation (freshOn v) = .ok () s' →
          s'.io.m_Dimensions = [dx.size, dy.size, dz.size] ∧
          s'.io.m_Spacing = [|dx.separation|, |dy.separation|, |dz.separation|] ∧
          s'.io.m_Origin = [dx.start, dy.start, dz.start]) := by
  intro hall
  obtain ⟨s', hs'⟩ := Option.isSome_iff_exists.1
    (show (ReadImageInformation (freshOn fileZXY)).okState?.isSome = true from rfl)
  have hok := okState_eq _ s' hs'
  have hval : (ReadImageInformation (freshOn fileZXY)).okState?.map
      (fun s => s.io.m_Dimensions) = some [3, 7, 5] := rfl
  rw [hs'] at hval
  simp only [Option.map_some', Option.some.injEq] at hval
  have hperm : fileZXY.dimensions.Perm [dimX, dimY, dimZ] :=
    (List.Perm.swap dimX dimZ [dimY]).trans ((List.Perm.swap dimY dimZ []).cons dimX)
  have h := (hall dimX dimY dimZ fileZXY hperm (by decide) s' hok).1
  rw [hval] at h
  revert h
  decide

/-- C15, amended: after a `ReadImageInformation` that returns normally, the
reported dimensions are in file declaration order: the size, spacing and origin
at positional index `i` are those of the `i`-th regularly sampled dimension the
file declares (the spacing in absolute value).  They are those of x, y and z
only when the file declares x, y, z in that order. -/
theorem ReadImageInformation_declaration_order (s0 s : Sys) (ops : List Op)
    (hinit : Initial s0) (hrun : runOps ops s0 = some s) :
    ∀ s', ReadImageInformation s = .ok () s' →
      ∃ v, s.lib.files.lookup s.io.m_FileName = some v ∧
        s'.io.m_NumberOfDimensions = v.regularDimensions.length ∧
        ∀ (i : Nat) (hi : i < v.regularDimensions.length),
          s'.io.m_Dimensions[i]? = some (v.regularDimensions[i]).size ∧
          s'.io.m_Spacing[i]? = some |(v.regularDimensions[i]).separation| ∧
          s'.io.m_Origin[i]? = some (v.regularDimensions[i]).start := by
  obtain ⟨hinv, hshape⟩ := reachable_invariant s0 s ops hinit hrun
  intro s' h
  obtain ⟨v, hv, _, hready, hdims, hat⟩ := ReadImageInformation_ok s s' hinv hshape h
  refine ⟨v, hv, hready.2.1, ?_⟩
  intro i hi
  obtain ⟨handle, hh, hsp, hor, _⟩ := hat i hi
  rw [List.getElem?_eq_getElem hi] at hh
  cases hh
  refine ⟨?_, ?_, hor⟩
  · rw [hdims, List.getElem?_map, List.getElem?_eq_getElem hi]
    rfl
  · rw [hsp, spacingForDimension_eq_abs]

/-- Witness of the amended C15 on the file declared in the order z, x, y: the
index 0 holds the size 3 and the origin `-3` of z. -/
theorem ReadImageInformation_declaration_order_witness :
    ∃ s', ReadImageInformation
        { constructedOn fileZXY with
          io := SetFileName "test.mnc" (constructedOn fileZXY).io } = .ok () s' ∧
      s'.io.m_Dimensions[0]? = some 3 ∧ s'.io.m_Origin[0]? = some (-3 : ℚ) ∧
      s'.io.m_Origin[1]? = some (-1 : ℚ) := by
  obtain ⟨s', hs'⟩ := Option.isSome_iff_exists.1
    (show (ReadImageInformation
      { constructedOn fileZXY with
        io := SetFileName "test.mnc" (constructedOn fileZXY).io }).okState?.isSome = true
      from rfl)
  have hok := okState_eq _ s' hs'
  obtain ⟨v, hv, _, hat⟩ := ReadImageInformation_declaration_order (constructedOn fileZXY)
    { constructedOn fileZXY with
      io := SetFileName "test.mnc" (constructedOn fileZXY).io }
    [.SetFileName "test.mnc"] ⟨rfl, rfl⟩ rfl s' hok
  have hv' : some fileZXY = some v := hv
  cases hv'
  exact ⟨s', hok, (hat 0 (by decide)).1, (hat 0 (by decide)).2.2, (hat 1 (by decide)).2.2⟩

end itk
